import Mathlib

/-!
Shallow embedding of the tender normalization and enrichment pipeline of the
Sirona Tender Intelligence Dashboard (a React SPA).  Pure functions of the
JavaScript source are translated to Lean functions; browser I/O (fetch,
sessionStorage, Date.now, Math.random, JSON.parse of the network reply) is
passed in as explicit parameters or oracles.  ISO date strings are
represented by their epoch-millisecond timestamps (`Int`); JavaScript
numbers are represented by `ℚ`, with `Option ℚ` where `NaN` is reachable
(`none` = NaN).
-/

set_option maxHeartbeats 1600000
set_option maxRecDepth 8192

namespace Sirona

/-- Model of a JavaScript JSON value (the result of `JSON.parse`). -/
inductive Json where
  | null : Json
  | bool (b : Bool) : Json
  | num (q : ℚ) : Json
  | str (s : String) : Json
  | arr (elems : List Json) : Json
  | obj (fields : List (String × Json)) : Json

/-- Look up a key in a JSON object field list (objects produced by
`JSON.parse` have unique keys, so first-match lookup is adequate). -/
def objGet (fields : List (String × Json)) (key : String) : Option Json :=
  match fields with
  | [] => none
  | (k, v) :: rest => if k = key then some v else objGet rest key

/-- Key-presence test, modelling the JavaScript `key in obj` operator. -/
def objHas (fields : List (String × Json)) (key : String) : Bool :=
  (objGet fields key).isSome

/-- Set a key in a JSON object field list, modelling JavaScript property
assignment: overwrite in place when present, append when absent. -/
def objSet (fields : List (String × Json)) (key : String) (v : Json) :
    List (String × Json) :=
  match fields with
  | [] => [(key, v)]
  | (k, w) :: rest =>
      if k = key then (k, v) :: rest else (k, w) :: objSet rest key v

/-- Truthiness of a JSON value under JavaScript coercion rules. -/
def jsTruthy : Json → Bool
  | .null => false
  | .bool b => b
  | .num q => q ≠ 0
  | .str s => s ≠ ""
  | .arr _ => true
  | .obj _ => true

/-- Read a string-valued key out of a JSON object. -/
def jsonStr (j : Json) (key : String) : Option String :=
  match j with
  | .obj fields =>
      match objGet fields key with
      | some (.str s) => some s
      | _ => none
  | _ => none

/-- Read a number-valued key out of a JSON object. -/
def jsonNum (j : Json) (key : String) : Option ℚ :=
  match j with
  | .obj fields =>
      match objGet fields key with
      | some (.num q) => some q
      | _ => none
  | _ => none

/-- Canonical tender record produced by the normalizers (`null` and
`undefined` for the optional bookkeeping fields are both modelled by
`none`).  `value` is `Option ℚ` because the part_002 value parser can
produce `NaN` (modelled as `none`). -/
structure Tender where
  id : String
  title : String
  organization : String
  value : Option ℚ
  deadline : Int
  status : String
  summary : String
  detailedDescription : String
  url : String
  region : String
  categories : List String
  source : String
  sirona_fit : Option Json := none
  ai_analyzed : Option Bool := none
  fetchedAt : String := ""
  analyzed_at : Option String := none
  analysis_error : Option String := none

/-- Recommendation string stored in a tender's `sirona_fit`, when present. -/
def fitRec (t : Tender) : Option String :=
  t.sirona_fit.bind (fun j => jsonStr j "recommendation")

/-- Alignment score stored in a tender's `sirona_fit`, when present. -/
def fitScore (t : Tender) : Option ℚ :=
  t.sirona_fit.bind (fun j => jsonNum j "alignment_score")

/-! ### Claude analyzer (src/services/claudeAnalyzer.js, first document)

`callClaudeAPI` performs the network request; its outcome is passed in as
an oracle of type `Except ClaudeFailure (Option Json)`: an error models one
of the exceptions thrown inside `callClaudeAPI` (or `validateApiKey`);
`ok none` models a reply whose text is not valid JSON after stripping code
fences; `ok (some j)` models a reply whose cleaned text parses to `j`. -/

/-- Failure causes of a single analysis call, one constructor per `throw`
site in `callClaudeAPI` / `validateApiKey` / `parseClaudeResponse`. -/
inductive ClaudeFailure where
  | noApiKey : ClaudeFailure
  | invalidKey : ClaudeFailure
  | rateLimited : ClaudeFailure
  | badRequest (body : String) : ClaudeFailure
  | apiError (status : Nat) (body : String) : ClaudeFailure
  | invalidFormat : ClaudeFailure
  | noTextContent : ClaudeFailure
  | networkError : ClaudeFailure
  | parseFailure (inner : String) : ClaudeFailure

/-- Message of each failure, as built at the corresponding `throw new
Error(...)` site in the source. -/
def ClaudeFailure.message : ClaudeFailure → String
  | .noApiKey =>
      "No API key configured. Please set your Anthropic API key using setApiKey() or add VITE_ANTHROPIC_API_KEY to your .env file. Get your API key from: https://console.anthropic.com/settings/keys"
  | .invalidKey => "Invalid API key. Please check your Anthropic API key and try again."
  | .rateLimited => "Rate limit exceeded. Please wait a moment and try again."
  | .badRequest body => "Bad request: " ++ body
  | .apiError status body => "API error (" ++ toString status ++ "): " ++ body
  | .invalidFormat => "Invalid response format from Claude API"
  | .noTextContent => "No text content in Claude response"
  | .networkError => "Network error: Unable to reach Anthropic API. Please check your internet connection."
  | .parseFailure inner => "Failed to parse Claude response: " ++ inner

/-- Required fields checked by `parseClaudeResponse`. -/
def requiredFields : List String :=
  ["alignment_score", "rationale", "win_themes", "competitors", "weak_spots",
   "recommendation"]

/-- Model of `parseClaudeResponse`: `none` input models text that
`JSON.parse` rejects; otherwise the required fields are checked with the
`in` operator (presence only, no type validation) and a missing/falsy
`categories` is defaulted to `[]`.  A non-object parse result fails: for a
primitive the `in` operator throws a TypeError, and for an array every
required field is absent.  All failures are rethrown with the
`Failed to parse Claude response:` prefix. -/
def parseClaudeResponse (doc : Option Json) : Except ClaudeFailure Json :=
  match doc with
  | none => .error (.parseFailure "Unexpected token in JSON")
  | some j =>
      match j with
      | .obj fields =>
          match requiredFields.find? (fun f => ! objHas fields f) with
          | some f => .error (.parseFailure ("Missing required field: " ++ f))
          | none =>
              let fields :=
                match objGet fields "categories" with
                | some v => if jsTruthy v then fields else objSet fields "categories" (.arr [])
                | none => objSet fields "categories" (.arr [])
              .ok (.obj fields)
      | .arr _ => .error (.parseFailure "Missing required field: alignment_score")
      | _ => .error (.parseFailure "Cannot use 'in' operator to search for 'alignment_score'")

/-- Fallback `sirona_fit` built in the catch block of
`analyzeTenderWithClaude`. -/
def fallbackFit (msg : String) : Json :=
  .obj [("alignment_score", .num 50),
        ("rationale", .str ("Unable to analyze: " ++ msg)),
        ("win_themes", .arr [.str "Analysis pending"]),
        ("competitors", .arr [.str "Unknown"]),
        ("weak_spots", .arr [.str "AI analysis failed"]),
        ("recommendation", .str "Monitor"),
        ("categories", .arr [])]

/-- Combined outcome of `callClaudeAPI` followed by `parseClaudeResponse`. -/
def claudeAnalysis (call : Except ClaudeFailure (Option Json)) :
    Except ClaudeFailure Json :=
  match call with
  | .error e => .error e
  | .ok doc => parseClaudeResponse doc

/-- Model of `analyzeTenderWithClaude`, additionally reporting whether the
network call was attempted.  The source body is a single `try` block that
unconditionally runs `buildAnalysisPrompt` and then `await
callClaudeAPI(prompt)` — there is no branch (in particular no deadline
check) before the network call, so the second component is `true` on every
input.  The success branch spreads the input tender and overrides only
`sirona_fit`, `ai_analyzed` and `analyzed_at` (any pre-existing
`analysis_error` survives the spread); the catch branch overrides
`sirona_fit`, `ai_analyzed` and `analysis_error`. -/
def analyzeTenderWithClaudeRun (nowIso : String)
    (call : Except ClaudeFailure (Option Json)) (tender : Tender) :
    Tender × Bool :=
  match claudeAnalysis call with
  | .ok fit =>
      ({ tender with
          sirona_fit := some fit
          ai_analyzed := some true
          analyzed_at := some nowIso }, true)
  | .error e =>
      ({ tender with
          sirona_fit := some (fallbackFit e.message)
          ai_analyzed := some false
          analysis_error := some e.message }, true)

/-- Model of `analyzeTenderWithClaude` (the returned promise value). -/
def analyzeTenderWithClaude (nowIso : String)
    (call : Except ClaudeFailure (Option Json)) (tender : Tender) : Tender :=
  (analyzeTenderWithClaudeRun nowIso call tender).1

/-! ### Generic string/number helpers for the JavaScript idioms used below -/

/-- JavaScript `s || d` on a string known to be defined: an empty string is
falsy and selects the fallback. -/
def jsOrStr (s d : String) : String := if s = "" then d else s

/-- JavaScript `v || d` where `v` may also be `undefined`/`null`
(modelled by `none`). -/
def jsOrStrO (v : Option String) (d : String) : String :=
  match v with
  | some s => if s = "" then d else s
  | none => d

/-- Truthiness of a possibly-absent string. -/
def truthyO (o : Option String) : Bool :=
  match o with
  | some s => s ≠ ""
  | none => false

/-- Whitespace recognized by the trim model (the source data never uses
the more exotic Unicode whitespace JavaScript would also trim). -/
def isJsWhitespace (c : Char) : Bool :=
  c == ' ' || c == '\t' || c == '\n' || c == '\r'

/-- Model of `String.prototype.trim`. -/
def jsTrim (s : String) : String :=
  String.mk (((s.data.dropWhile isJsWhitespace).reverse.dropWhile isJsWhitespace).reverse)

/-- ASCII lowercasing of one character (the source data is ASCII). -/
def lowerChar (c : Char) : Char :=
  if 65 ≤ c.toNat && c.toNat ≤ 90 then Char.ofNat (c.toNat + 32) else c

/-- Model of `String.prototype.toLowerCase`. -/
def jsToLower (s : String) : String :=
  String.mk (s.data.map lowerChar)

/-- Model of `String.prototype.substring(0, n)`. -/
def jsTake (s : String) (n : ℕ) : String :=
  String.mk (s.data.take n)

/-- Character-list test that `pat` occurs at the start of `hay`. -/
def startsWithL : List Char → List Char → Bool
  | _, [] => true
  | [], _ :: _ => false
  | h :: hs, p :: ps => h == p && startsWithL hs ps

/-- Character-list substring occurrence test. -/
def includesL : List Char → List Char → Bool
  | [], pat => pat.isEmpty
  | h :: rest, pat => startsWithL (h :: rest) pat || includesL rest pat

/-- JavaScript `String.prototype.includes` (substring test). -/
def sIncludes (s pat : String) : Bool := includesL s.data pat.data

/-- Split a character list at each newline. -/
def splitLinesAux : List Char → List Char → List String
  | [], current => [String.mk current.reverse]
  | c :: rest, current =>
      if c == '\n' then String.mk current.reverse :: splitLinesAux rest []
      else splitLinesAux rest (c :: current)

/-- Model of `csvText.split('\n')`. -/
def splitLines (s : String) : List String := splitLinesAux s.data []

/-- Numeric value of a digit run. -/
def digitsVal (ds : List Char) : ℕ :=
  ds.foldl (fun n c => 10 * n + (c.toNat - 48)) 0

/-- Model of JavaScript `parseFloat`: skip leading whitespace, optional
sign, longest numeric prefix with optional fraction and exponent; `none`
models `NaN` (no digits found).  The `Infinity` literal is not modelled —
no source call site feeds it. -/
def jsParseFloat (s : String) : Option ℚ :=
  let cs := s.data.dropWhile (fun c => c == ' ' || c == '\t' || c == '\n' || c == '\r')
  let signAndRest : ℚ × List Char :=
    match cs with
    | '-' :: rest => (-1, rest)
    | '+' :: rest => (1, rest)
    | _ => (1, cs)
  let sign := signAndRest.1
  let cs := signAndRest.2
  let intPart := cs.takeWhile Char.isDigit
  let cs2 := cs.dropWhile Char.isDigit
  let fracAndRest : List Char × List Char :=
    match cs2 with
    | '.' :: rest => (rest.takeWhile Char.isDigit, rest.dropWhile Char.isDigit)
    | _ => ([], cs2)
  let fracPart := fracAndRest.1
  let cs3 := fracAndRest.2
  if intPart.isEmpty && fracPart.isEmpty then none
  else
    let mantissa : ℚ :=
      (digitsVal intPart : ℚ) + (digitsVal fracPart : ℚ) / ((10 : ℚ) ^ fracPart.length)
    let expVal : Option Int :=
      match cs3 with
      | e :: rest =>
          if e == 'e' || e == 'E' then
            let esignAndRest : Int × List Char :=
              match rest with
              | '-' :: r => (-1, r)
              | '+' :: r => (1, r)
              | _ => (1, rest)
            let eds := esignAndRest.2.takeWhile Char.isDigit
            if eds.isEmpty then none else some (esignAndRest.1 * (digitsVal eds : Int))
          else none
      | [] => none
    match expVal with
    | some e => some (sign * (mantissa * (10 : ℚ) ^ e))
    | none => some (sign * mantissa)

/-! ### Filter/Sort engine (src/App.jsx, `filteredAndSortedTenders`)

The recommendation filter and the `alignment-desc` comparator read
`tender.sirona_fit.recommendation` / `.alignment_score` without a guard:
when `sirona_fit` is `null`/absent the property access throws a TypeError,
modelled by the `Except` error case.  An exception thrown from
`Array.prototype.filter` or from the sort comparator propagates out of the
whole `useMemo` computation. -/

/-- Filter predicate of `filteredAndSortedTenders` (the three AND-combined
checks run in source order; the recommendation check dereferences
`sirona_fit` only when the filter is not `"all"`). -/
def passesFilters (statusFilter recommendationFilter : String)
    (categoryFilter : List String) (t : Tender) : Except String Bool :=
  if statusFilter ≠ "all" && t.status ≠ statusFilter then .ok false
  else if recommendationFilter = "all" then
    .ok (categoryFilter.isEmpty || categoryFilter.any (fun c => t.categories.contains c))
  else
    match t.sirona_fit with
    | none =>
        .error "TypeError: cannot read property recommendation of null/undefined"
    | some fit =>
        if (match jsonStr fit "recommendation" with
            | some s => s == recommendationFilter
            | none => false) then
          .ok (categoryFilter.isEmpty || categoryFilter.any (fun c => t.categories.contains c))
        else .ok false

/-- Effectful `Array.prototype.filter` over the tender list (the first
thrown exception aborts the traversal). -/
def filterTendersE (statusFilter recommendationFilter : String)
    (categoryFilter : List String) : List Tender → Except String (List Tender)
  | [] => .ok []
  | t :: ts => do
      let keep ← passesFilters statusFilter recommendationFilter categoryFilter t
      let rest ← filterTendersE statusFilter recommendationFilter categoryFilter ts
      pure (if keep then t :: rest else rest)

/-- JavaScript subtraction of two possibly-NaN numbers as consumed by
`SortCompare`: a NaN comparator result is treated as `+0` by the sort. -/
def jsSub (x y : Option ℚ) : ℚ :=
  match x, y with
  | some a, some b => a - b
  | _, _ => 0

/-- Sort comparator of `filteredAndSortedTenders`, selected by `sortBy`.
For `alignment-desc` the left operand `b.sirona_fit.alignment_score` is
evaluated first, so a missing `sirona_fit` on either argument throws. -/
def tenderComparator (sortBy : String) (a b : Tender) : Except String ℚ :=
  match sortBy with
  | "deadline-asc" => .ok ((a.deadline : ℚ) - (b.deadline : ℚ))
  | "deadline-desc" => .ok ((b.deadline : ℚ) - (a.deadline : ℚ))
  | "value-high" => .ok (jsSub b.value a.value)
  | "value-low" => .ok (jsSub a.value b.value)
  | "alignment-desc" =>
      match b.sirona_fit, a.sirona_fit with
      | none, _ =>
          .error "TypeError: cannot read property alignment_score of null/undefined"
      | _, none =>
          .error "TypeError: cannot read property alignment_score of null/undefined"
      | some fb, some fa =>
          .ok (jsSub (jsonNum fb "alignment_score") (jsonNum fa "alignment_score"))
  | _ => .ok 0

/-- Stable insertion of one element behind all elements it does not
strictly precede (comparator result `< 0` means the inserted element goes
first). -/
def orderedInsertE (cmp : Tender → Tender → Except String ℚ) (x : Tender) :
    List Tender → Except String (List Tender)
  | [] => .ok [x]
  | y :: ys => do
      let c ← cmp x y
      if c < 0 then pure (x :: y :: ys)
      else do
        let rest ← orderedInsertE cmp x ys
        pure (y :: rest)

/-- Model of `[...filtered].sort(comparator)`.  ECMAScript `sort` is
stable and, for a consistent comparator, returns the unique stable sorted
permutation — the same list a stable insertion sort produces; a comparator
exception propagates out of the sort in both. -/
def sortTendersE (cmp : Tender → Tender → Except String ℚ)
    (ts : List Tender) : Except String (List Tender) :=
  ts.foldlM (fun acc x => orderedInsertE cmp x acc) []

/-- Model of the `filteredAndSortedTenders` derived view. -/
def filteredAndSortedTenders (statusFilter recommendationFilter : String)
    (categoryFilter : List String) (sortBy : String) (ts : List Tender) :
    Except String (List Tender) := do
  let filtered ← filterTendersE statusFilter recommendationFilter categoryFilter ts
  sortTendersE (tenderComparator sortBy) filtered

/-! ### Deduplication (CSV pipeline ocid dedupe; part_002 `mergeTenderData`)

Both dedupe loops share one shape: walk the list, keep an element when its
key has not been seen, remember the key. -/

/-- The shared dedupe loop, with the set of seen keys as a list. -/
def dedupeByGo {α : Type} (key : α → String) (seen : List String) :
    List α → List α
  | [] => []
  | x :: xs =>
      if key x ∈ seen then dedupeByGo key seen xs
      else x :: dedupeByGo key (key x :: seen) xs

/-- Deduplicate by a string key, first occurrence wins. -/
def dedupeByKey {α : Type} (key : α → String) (xs : List α) : List α :=
  dedupeByGo key [] xs

/-- The by-`id` dedupe of `fetchAndProcessTenders` (CSV pipeline):
`seenOcids` keyed on `tender.id`. -/
def dedupeByOcid (ts : List Tender) : List Tender :=
  dedupeByKey (fun t => t.id) ts

/-- Composite dedupe key of `mergeTenderData`:
`` `${title.toLowerCase().trim()}|${organization.toLowerCase().trim()}` ``. -/
def compositeKey (t : Tender) : String :=
  jsTrim (jsToLower t.title) ++ "|" ++ jsTrim (jsToLower t.organization)

/-- Model of part_002 `mergeTenderData`: concatenate both sources and
deduplicate by the composite title+organization key. -/
def mergeTenderData (contractsFinderData findATenderData : List Tender) :
    List Tender :=
  dedupeByKey compositeKey (contractsFinderData ++ findATenderData)

/-! ### CSV tokenizer and CSV normalizer (claudeAnalyzer.js, third document) -/

/-- The character scan of `parseCSVLine`: toggle `inQuotes` on each quote
character (the quote itself is consumed, never appended to the current
token), split on a comma only when outside quotes, trim each pushed
token. -/
def parseCSVLineAux : List Char → String → Bool → List String → List String
  | [], current, _, result => result ++ [jsTrim current]
  | c :: rest, current, inQuotes, result =>
      if c == '"' then parseCSVLineAux rest current (!inQuotes) result
      else if c == ',' && !inQuotes then
        parseCSVLineAux rest "" inQuotes (result ++ [jsTrim current])
      else parseCSVLineAux rest (current.push c) inQuotes result

/-- The final `v.replace(/^"|"$/g, '')`: remove one leading and one
trailing quote character. -/
def stripEdgeQuotes (s : String) : String :=
  let cs := s.data
  let cs := if cs.head? = some '"' then cs.tail else cs
  let cs := if cs.getLast? = some '"' then cs.dropLast else cs
  String.mk cs

/-- Model of `parseCSVLine`. -/
def parseCSVLine (line : String) : List String :=
  (parseCSVLineAux line.data "" false []).map (fun v => jsTrim (stripEdgeQuotes v))

/-- Specification-side plain comma splitter (the naive `split(',')`),
used as the reference point of the C7 refinement statement: on
quote-free input the quote-aware tokenizer must agree with it. -/
def specSplitCommasAux : List Char → List Char → List String
  | [], current => [String.mk current.reverse]
  | c :: rest, current =>
      if c == ',' then String.mk current.reverse :: specSplitCommasAux rest []
      else specSplitCommasAux rest (c :: current)

/-- Split a string at every comma. -/
def specSplitCommas (s : String) : List String := specSplitCommasAux s.data []

/-- Row object built by `parseOCDSCSV`: `row[header] = values[index] || ''`
assigns every header a defined value, padding short rows with empty
strings. -/
def buildRow (headers values : List String) : List (String × String) :=
  headers.enum.map (fun p => (p.2, (values.get? p.1).getD ""))

/-- Property read on the row object.  A duplicate header writes last, so
lookup walks the reversed assignment list; a key that is no header at all
reads `undefined` (`none`). -/
def rowGet (row : List (String × String)) (key : String) : Option String :=
  row.reverse.lookup key

/-- The keyword→category table of the CSV pipeline's `extractCategories`. -/
def csvCategoryMap : List (String × List String) :=
  [("Healthcare", ["health", "nhs", "medical", "clinical", "hospital"]),
   ("Community Services", ["community", "neighbourhood", "local"]),
   ("Mental Health", ["mental health", "psychiatric", "psychological", "wellbeing"]),
   ("Urgent Care", ["urgent care", "emergency", "out of hours", "walk-in"]),
   ("Primary Care", ["primary care", "gp", "general practice", "family practice"]),
   ("Integrated Care", ["integrated care", "ics", "icb", "integrated health"]),
   ("Children & Young People", ["children", "paediatric", "pediatric", "young people", "youth"]),
   ("Social Care", ["social care", "adult social", "care homes"]),
   ("Rehabilitation", ["rehabilitation", "therapy", "physiotherapy", "occupational therapy"]),
   ("Dental Services", ["dental", "dentist", "orthodontic"])]

/-- The CSV pipeline's `extractCategories(title, description, row)`. -/
def extractCategoriesCSV (title description : String)
    (row : List (String × String)) : List String :=
  let text := jsToLower (title ++ " " ++ description)
  let categories := csvCategoryMap.foldl
    (fun acc p => if p.2.any (fun kw => sIncludes text kw) then acc ++ [p.1] else acc) []
  let mainCategory := jsOrStrO (rowGet row "releases/0/tender/mainProcurementCategory")
    (jsOrStrO (rowGet row "tender/mainProcurementCategory") "")
  let categories :=
    if sIncludes (jsToLower mainCategory) "service" && categories.isEmpty then
      categories ++ ["Services"]
    else categories
  if categories.isEmpty then ["Other"] else dedupeByKey (fun s => s) categories

/-- Milliseconds in 30 days, as added by `getDefaultDeadline`. -/
def thirtyDaysMs : Int := 30 * 86400000

/-- The CSV value coercion `parseFloat(valueAmount) || 100000`: both `NaN`
and `0` select the 100000 fallback. -/
def csvParseValue (s : String) : ℚ :=
  match jsParseFloat s with
  | some q => if q = 0 then 100000 else q
  | none => 100000

/-- One data row of `parseOCDSCSV` (the per-row `try` cannot fail in this
model: every operation in the row body is total).  Returns `none` when the
row is skipped for lack of a usable title. -/
def csvRowToTender (nowMs : Int) (nowIso : String) (dateOf : String → Int)
    (headers : List String) (i : ℕ) (line : String) : Option Tender :=
  let values := parseCSVLine line
  let row := buildRow headers values
  let title := jsOrStrO (rowGet row "releases/0/tender/title")
    (jsOrStrO (rowGet row "tender/title") "Untitled Tender")
  let buyerName := jsOrStrO (rowGet row "releases/0/buyer/name")
    (jsOrStrO (rowGet row "buyer/name") "Unknown Organization")
  let valueAmount := jsOrStrO (rowGet row "releases/0/tender/value/amount")
    (jsOrStrO (rowGet row "tender/value/amount") "0")
  let endDate := jsOrStrO (rowGet row "releases/0/tender/tenderPeriod/endDate")
    (jsOrStrO (rowGet row "tender/tenderPeriod/endDate") "")
  let description := jsOrStrO (rowGet row "releases/0/tender/description")
    (jsOrStrO (rowGet row "tender/description") "")
  let ocid := jsOrStrO (rowGet row "ocid") ("tender-" ++ toString i)
  let region := jsOrStrO (rowGet row "releases/0/buyer/address/region")
    (jsOrStrO (rowGet row "buyer/address/region") "")
  let locality := jsOrStrO (rowGet row "releases/0/buyer/address/locality")
    (jsOrStrO (rowGet row "buyer/address/locality") "")
  if title = "" ∨ title = "Untitled Tender" then none
  else some
    { id := ocid
      title := title
      organization := buyerName
      value := some (csvParseValue valueAmount)
      -- `endDate || getDefaultDeadline()`: the raw ISO string is kept in the
      -- source; here it is represented by its timestamp via `dateOf`.
      deadline := if endDate = "" then nowMs + thirtyDaysMs else dateOf endDate
      status := "new"
      summary := jsOrStr (jsTake description 200) title
      detailedDescription := jsOrStr description "No description available"
      url := "https://www.contractsfinder.service.gov.uk/notice/" ++ ocid
      region := jsOrStr region (jsOrStr locality "UK")
      categories := extractCategoriesCSV title description row
      source := "Contracts Finder (OCDS CSV)"
      fetchedAt := nowIso
      sirona_fit := none }

/-- The row loop of `parseOCDSCSV` (row index `i` starts at 1, the header
being line 0). -/
def csvRowsToTenders (nowMs : Int) (nowIso : String) (dateOf : String → Int)
    (headers : List String) : ℕ → List String → List Tender
  | _, [] => []
  | i, line :: rest =>
      match csvRowToTender nowMs nowIso dateOf headers i line with
      | some t => t :: csvRowsToTenders nowMs nowIso dateOf headers (i + 1) rest
      | none => csvRowsToTenders nowMs nowIso dateOf headers (i + 1) rest

/-- Model of `parseOCDSCSV`. -/
def parseOCDSCSV (nowMs : Int) (nowIso : String) (dateOf : String → Int)
    (csvText : String) : List Tender :=
  if jsTrim csvText = "" then []
  else
    match (splitLines csvText).filter (fun l => jsTrim l ≠ "") with
    | [] => []
    | [_] => []
    | headerLine :: dataLines =>
        csvRowsToTenders nowMs nowIso dateOf (parseCSVLine headerLine) 1 dataLines

/-! ### OCDS JSON normalizer (claudeAnalyzer.js, second document)

Releases are duck-typed JSON; each field that may be absent is an
`Option`. -/

/-- A JavaScript value that is either a string or a number (monetary
`amount` fields may be either in the wild). -/
inductive StrNum where
  | str (s : String) : StrNum
  | num (q : ℚ) : StrNum

/-- Truthiness of a `StrNum`. -/
def StrNum.truthy : StrNum → Bool
  | .str s => s ≠ ""
  | .num q => q ≠ 0

/-- JavaScript `parseFloat` applied to a string-or-number (a finite number
round-trips through its string form unchanged). -/
def StrNum.parseFloatVal : StrNum → Option ℚ
  | .num q => some q
  | .str s => jsParseFloat s

/-- OCDS `value` object. -/
structure OcdsValue where
  amount : Option StrNum := none

/-- OCDS period object. -/
structure OcdsPeriod where
  endDate : Option String := none

/-- OCDS classification object. -/
structure OcdsClassification where
  description : Option String := none
  scheme : Option String := none

/-- OCDS `tender` object (the fields the extractors read). -/
structure OcdsTender where
  title : Option String := none
  description : Option String := none
  value : Option OcdsValue := none
  minValue : Option OcdsValue := none
  estimatedValue : Option OcdsValue := none
  tenderPeriod : Option OcdsPeriod := none
  contractPeriod : Option OcdsPeriod := none
  mainProcurementCategory : Option String := none
  classification : Option OcdsClassification := none

/-- OCDS buyer address. -/
structure OcdsAddress where
  region : Option String := none
  locality : Option String := none
  countryName : Option String := none

/-- OCDS buyer. -/
structure OcdsBuyer where
  name : Option String := none
  address : Option OcdsAddress := none

/-- OCDS release. -/
structure OcdsRelease where
  ocid : Option String := none
  id : Option String := none
  buyer : Option OcdsBuyer := none
  tender : Option OcdsTender := none

/-- The `x && x.amount` guard of `extractValue`. -/
def amountTruthy (v : Option OcdsValue) : Bool :=
  match v with
  | some a =>
      match a.amount with
      | some x => x.truthy
      | none => false
  | none => false

/-- The `parseFloat(x.amount) || 0` coercion of `extractValue`. -/
def amountParsed (v : Option OcdsValue) : ℚ :=
  ((v.bind (fun a => a.amount)).bind StrNum.parseFloatVal).getD 0

/-- Model of `extractValue` (claudeAnalyzer.js lines 731–751): try
`tender.value.amount`, `tender.minValue.amount`,
`tender.estimatedValue.amount` in order, guarded by truthiness; parse
failures inside a taken branch yield 0 through `|| 0`; only when no branch
is taken does the 100000 default apply.  The `!tender` null guard is
unreachable at the call site (releases are pre-filtered on `tender`). -/
def extractValue (t : OcdsTender) : ℚ :=
  if amountTruthy t.value then amountParsed t.value
  else if amountTruthy t.minValue then amountParsed t.minValue
  else if amountTruthy t.estimatedValue then amountParsed t.estimatedValue
  else 100000

/-- Model of `extractDeadline`: `tenderPeriod.endDate` first,
`contractPeriod.endDate` second, with an invalid date (the
`toISOString` throw, `dateOf _ = none`) falling through; else now+30d. -/
def extractDeadline (dateOf : String → Option Int) (nowMs : Int)
    (t : OcdsTender) : Int :=
  let fromPeriod : Option OcdsPeriod → Option Int := fun p =>
    match p with
    | some period =>
        match period.endDate with
        | some d => if d = "" then none else dateOf d
        | none => none
    | none => none
  match fromPeriod t.tenderPeriod with
  | some ms => ms
  | none =>
      match fromPeriod t.contractPeriod with
      | some ms => ms
      | none => nowMs + thirtyDaysMs

/-- Model of `buildTenderUrl`. -/
def buildTenderUrl (r : OcdsRelease) : String :=
  if truthyO r.id then
    "https://www.contractsfinder.service.gov.uk/Notice/" ++ r.id.getD ""
  else if truthyO r.ocid then
    "https://www.contractsfinder.service.gov.uk/Search/Results?ocid=" ++ r.ocid.getD ""
  else "https://www.contractsfinder.service.gov.uk/"

/-- Model of the OCDS `extractRegion` (the `!buyer` guard is unreachable:
the caller defaults `release.buyer || {}`). -/
def extractRegionOcds (buyer : Option OcdsBuyer) : String :=
  match buyer with
  | some b =>
      match b.address with
      | some a =>
          jsOrStr (a.region.getD "")
            (jsOrStr (a.locality.getD "") (jsOrStr (a.countryName.getD "") "UK"))
      | none => "UK"
  | none => "UK"

/-- Add to a JavaScript `Set` (insertion order preserved, duplicates
ignored). -/
def addCat (cats : List String) (c : String) : List String :=
  if c ∈ cats then cats else cats ++ [c]

/-- Model of the OCDS `extractCategories` (Set-based, sequential adds in
source order; the `scheme` local of the source is read but never used). -/
def extractCategoriesOcds (t : OcdsTender) : List String :=
  let cats : List String := []
  let cats :=
    if truthyO t.mainProcurementCategory then
      let category := t.mainProcurementCategory.getD ""
      let cats := if sIncludes category "services" || sIncludes category "Services" then
          addCat cats "Professional Services" else cats
      let cats := if sIncludes category "goods" || sIncludes category "Goods" then
          addCat cats "Goods & Supplies" else cats
      if sIncludes category "works" || sIncludes category "Works" then
        addCat cats "Construction & Works" else cats
    else cats
  let cats :=
    match t.classification with
    | some cls =>
        let desc := jsToLower (cls.description.getD "")
        let cats := if sIncludes desc "health" || sIncludes desc "medical" then
            addCat cats "Healthcare" else cats
        if sIncludes desc "social" then addCat cats "Social Care" else cats
    | none => cats
  let text := jsToLower ((t.title.getD "") ++ " " ++ (t.description.getD ""))
  let cats := if sIncludes text "health" || sIncludes text "nhs" || sIncludes text "medical" then
      addCat cats "Healthcare" else cats
  let cats := if sIncludes text "community" then addCat cats "Community Services" else cats
  let cats := if sIncludes text "mental health" || sIncludes text "mental" then
      addCat cats "Mental Health" else cats
  let cats := if sIncludes text "children" || sIncludes text "young people" || sIncludes text "youth" then
      addCat cats "Children & Young People" else cats
  let cats := if sIncludes text "rehabilitation" || sIncludes text "therapy" || sIncludes text "physiotherapy" then
      addCat cats "Rehabilitation" else cats
  let cats := if sIncludes text "dental" || sIncludes text "dentist" then
      addCat cats "Dental Services" else cats
  let cats := if sIncludes text "care" && !(cats.contains "Healthcare") then
      addCat cats "Social Care" else cats
  if cats.isEmpty then ["Other"] else cats

/-- One release of `parseOCDSResponse` (only called on releases whose
`tender` survives the filter; `idx` is the position in the filtered
list).  The per-release `try/catch → null → filter` cannot fire: the
body is total in this model. -/
def ocdsReleaseToTender (nowMs : Int) (nowIso : String)
    (dateOf : String → Option Int) (idx : ℕ) (release : OcdsRelease) : Tender :=
  let tender := release.tender.getD {}
  let buyer := release.buyer
  { id := jsOrStrO release.ocid
      (jsOrStrO release.id ("OCDS-" ++ toString nowMs ++ "-" ++ toString idx))
    title := jsOrStrO tender.title "Untitled Tender"
    organization :=
      (match buyer with
       | some b => jsOrStrO b.name "Unknown Organization"
       | none => "Unknown Organization")
    value := some (extractValue tender)
    deadline := extractDeadline dateOf nowMs tender
    status := "new"
    summary := jsOrStrO tender.description "No summary available"
    detailedDescription := jsOrStrO tender.description "No detailed description available"
    url := buildTenderUrl release
    region := extractRegionOcds buyer
    categories := extractCategoriesOcds tender
    source := "Contracts Finder (OCDS)"
    fetchedAt := nowIso }

/-- Model of `parseOCDSResponse` over the `releases` array: keep only
releases with tender data, then map each to a Tender. -/
def parseOCDSResponse (nowMs : Int) (nowIso : String)
    (dateOf : String → Option Int) (releases : List OcdsRelease) : List Tender :=
  ((releases.filter (fun r => r.tender.isSome)).enum).map
    (fun p => ocdsReleaseToTender nowMs nowIso dateOf p.1 p.2)

/-! ### part_002 normalizer (`parseContractsFinderData`, `parseValue`,
`parseDate`) -/

/-- A raw monetary field of a part_002 notice: a number, a string, or an
object with an `amount` property. -/
inductive MoneyV where
  | num (q : ℚ) : MoneyV
  | str (s : String) : MoneyV
  | obj (amount : Option StrNum) : MoneyV

/-- Truthiness of a monetary field (objects are always truthy). -/
def MoneyV.truthy : MoneyV → Bool
  | .num q => q ≠ 0
  | .str s => s ≠ ""
  | .obj _ => true

/-- The `a || b || c` chain over monetary fields: first truthy value.
When every operand is falsy the chain yields the last falsy value, which
`parseValue` maps to 0 exactly as it maps `none`. -/
def firstTruthyMoney : List (Option MoneyV) → Option MoneyV
  | [] => none
  | o :: rest =>
      match o with
      | some m => if m.truthy then some m else firstTruthyMoney rest
      | none => firstTruthyMoney rest

/-- The `value.replace(/[Â£$,]/g, '')` cleanup (the source's character
class is the mojibake form of `£`). -/
def cleanCurrency (s : String) : String :=
  String.mk (s.data.filter (fun c => !(c == '£' || c == '$' || c == ',' || c == 'Â')))

/-- Model of part_002 `parseValue`: numbers pass through, strings are
cleaned and parsed with an explicit `isNaN → 0` guard, an object's truthy
`amount` is parsed with NO NaN guard (`none` = NaN escapes), and every
other input — including a completely absent value — falls through to
`return 0`. -/
def parseValue (v : Option MoneyV) : Option ℚ :=
  match v with
  | some (.num q) => some q
  | some (.str s) => some ((jsParseFloat (cleanCurrency s)).getD 0)
  | some (.obj amount) =>
      match amount with
      | some a => if a.truthy then a.parseFloatVal else some 0
      | none => some 0
  | none => some 0

/-- Model of part_002 `parseDate`: falsy input or an unparseable date (the
`toISOString` throw) yields now+30 days. -/
def parseDate (dateOf : String → Option Int) (nowMs : Int)
    (d : Option String) : Int :=
  match d with
  | none => nowMs + thirtyDaysMs
  | some s => if s = "" then nowMs + thirtyDaysMs else (dateOf s).getD (nowMs + thirtyDaysMs)

/-- The `a || b || c` chain over possibly-absent strings: first truthy. -/
def firstTruthyStr : List (Option String) → Option String
  | [] => none
  | o :: rest =>
      match o with
      | some s => if s ≠ "" then some s else firstTruthyStr rest
      | none => firstTruthyStr rest

/-- String interpolation of a possibly-undefined value:
`` `${undefined}` `` renders as `"undefined"`. -/
def jsInterp (o : Option String) : String :=
  match o with
  | some s => s
  | none => "undefined"

/-- part_002 buyer address. -/
structure CfAddress where
  region : Option String := none
  locality : Option String := none
  city : Option String := none

/-- A raw Contracts Finder notice as read by part_002
`parseContractsFinderData` (`buyerName` stands for `notice.buyer?.name`,
`buyerAddress` for `notice.buyer?.address`). -/
structure CfNotice where
  ocid : Option String := none
  id : Option String := none
  title : Option String := none
  name : Option String := none
  buyerName : Option String := none
  organisation : Option String := none
  buyerAddress : Option CfAddress := none
  value : Option MoneyV := none
  minValue : Option MoneyV := none
  estimatedValue : Option MoneyV := none
  closing : Option String := none
  deadline : Option String := none
  closingDate : Option String := none
  description : Option String := none
  summary : Option String := none
  url : Option String := none
  link : Option String := none
  region : Option String := none
  classification : Option String := none
  cpv : Option String := none

/-- Model of part_002 `extractRegion` over an address object. -/
def extractRegionCf (address : Option CfAddress) : String :=
  match address with
  | none => "UK"
  | some a =>
      jsOrStr (a.region.getD "")
        (jsOrStr (a.locality.getD "") (jsOrStr (a.city.getD "") "UK"))

/-- Model of part_002 `extractCategories` (array pushes, then
`[...new Set(categories)]`). -/
def extractCategoriesCf (n : CfNotice) : List String :=
  let cats : List String := []
  let cats :=
    if truthyO n.classification || truthyO n.cpv then
      let classification := jsOrStrO n.classification (jsOrStrO n.cpv "")
      let cats := if sIncludes classification "health" || sIncludes classification "Health" then
          cats ++ ["Healthcare"] else cats
      if sIncludes classification "social" || sIncludes classification "Social" then
        cats ++ ["Social Care"] else cats
    else cats
  let text := jsToLower ((n.title.getD "") ++ " " ++ (n.description.getD ""))
  let cats := if sIncludes text "health" || sIncludes text "nhs" then cats ++ ["Healthcare"] else cats
  let cats := if sIncludes text "community" then cats ++ ["Community Services"] else cats
  let cats := if sIncludes text "mental health" then cats ++ ["Mental Health"] else cats
  let cats := if sIncludes text "children" || sIncludes text "young people" then
      cats ++ ["Children & Young People"] else cats
  let cats := if sIncludes text "rehabilitation" || sIncludes text "therapy" then
      cats ++ ["Rehabilitation"] else cats
  let cats := if sIncludes text "dental" then cats ++ ["Dental Services"] else cats
  let cats := if cats.isEmpty then ["Other"] else cats
  dedupeByKey (fun s => s) cats

/-- One notice of part_002 `parseContractsFinderData`. -/
def cfNoticeToTender (nowMs : Int) (nowIso : String)
    (dateOf : String → Option Int) (index : ℕ) (n : CfNotice) : Tender :=
  { id := jsOrStrO n.ocid
      (jsOrStrO n.id ("CF-" ++ toString nowMs ++ "-" ++ toString index))
    title := jsOrStrO n.title (jsOrStrO n.name "Untitled Tender")
    organization := jsOrStrO n.buyerName (jsOrStrO n.organisation "Unknown Organization")
    value := parseValue (firstTruthyMoney [n.value, n.minValue, n.estimatedValue])
    deadline := parseDate dateOf nowMs (firstTruthyStr [n.closing, n.deadline, n.closingDate])
    status := "new"
    summary := jsOrStrO n.description (jsOrStrO n.summary "No summary available")
    detailedDescription := jsOrStrO n.description (jsOrStrO n.summary "No detailed description available")
    url := jsOrStrO n.url (jsOrStrO n.link
      ("https://www.contractsfinder.service.gov.uk/notice/" ++ jsInterp n.id))
    region := jsOrStrO n.region (jsOrStr (extractRegionCf n.buyerAddress) "UK")
    categories := extractCategoriesCf n
    source := "Contracts Finder"
    fetchedAt := nowIso }

/-- Model of part_002 `parseContractsFinderData`. -/
def parseContractsFinderData (nowMs : Int) (nowIso : String)
    (dateOf : String → Option Int) (notices : List CfNotice) : List Tender :=
  notices.enum.map (fun p => cfNoticeToTender nowMs nowIso dateOf p.1 p.2)

/-! ### Placeholder enrichment (`enrichTenderWithAI`,
`getRandomRecommendation`) and the CSV fetch-and-process pipeline.
`Math.random()` draws are passed in explicitly. -/

/-- The cumulative-weight loop of `getRandomRecommendation`. -/
def grrGo (r : ℚ) (cumulative : ℚ) : List (String × ℚ) → String
  | [] => "Monitor"
  | (rec, w) :: rest =>
      let cumulative := cumulative + w
      if r < cumulative then rec else grrGo r cumulative rest

/-- Model of `getRandomRecommendation` with the random draw `r` as
argument (weights 0.25 / 0.35 / 0.30 / 0.10). -/
def getRandomRecommendation (r : ℚ) : String :=
  grrGo r 0
    [("Strong Go", 25/100), ("Conditional Go", 35/100),
     ("Monitor", 30/100), ("No Bid", 10/100)]

/-- The four recommendation values of the placeholder generator. -/
def recommendationValues : List String :=
  ["Strong Go", "Conditional Go", "Monitor", "No Bid"]

/-- Placeholder `sirona_fit` of the CSV pipeline's `enrichTenderWithAI`
(`r1` feeds `Math.floor(Math.random() * 30) + 60`, `r2` feeds
`getRandomRecommendation`). -/
def placeholderFit (r1 r2 : ℚ) (tenderCategories : List String) : Json :=
  .obj [("alignment_score", .num (((⌊r1 * 30⌋ : ℤ) : ℚ) + 60)),
        ("recommendation", .str (getRandomRecommendation r2)),
        ("rationale", .str "This tender requires AI analysis. Use the \"Analyze This Tender\" feature for detailed strategic fit assessment."),
        ("win_themes", .arr [.str "Community-focused healthcare delivery",
                             .str "Integrated care experience",
                             .str "Local knowledge and presence"]),
        ("competitors", .arr [.str "Local NHS Trusts",
                              .str "Other community health providers",
                              .str "National healthcare organizations"]),
        ("weak_spots", .arr [.str "Competitive landscape to be assessed",
                             .str "Strategic fit requires detailed analysis",
                             .str "Resource requirements need review"]),
        ("categories", .arr (tenderCategories.map Json.str))]

/-- Model of the CSV pipeline's `enrichTenderWithAI`: spread the tender
and set only `sirona_fit` to the placeholder. -/
def enrichTenderWithAI (r1 r2 : ℚ) (t : Tender) : Tender :=
  { t with sirona_fit := some (placeholderFit r1 r2 t.categories) }

/-- Search parameters of the CSV pipeline's `applyFilters`.  The numeric
bounds stand for `parseFloat(searchParams.minValue)` etc., and the date
bounds for the `new Date(...)` values of the `YYYY-MM-DD` strings. -/
structure SearchParams where
  keywords : Option String := none
  location : Option String := none
  minValue : Option ℚ := none
  maxValue : Option ℚ := none
  publishedFrom : Option Int := none
  publishedTo : Option Int := none

/-- JavaScript `v >= m` where `v` may be NaN: any comparison with NaN is
false. -/
def jsGe (v : Option ℚ) (m : ℚ) : Bool :=
  match v with
  | some q => m ≤ q
  | none => false

/-- JavaScript `v <= m` where `v` may be NaN. -/
def jsLe (v : Option ℚ) (m : ℚ) : Bool :=
  match v with
  | some q => q ≤ m
  | none => false

/-- Timestamp of `new Date('2000-01-01')`. -/
def dateFloor : Int := 946684800000

/-- Timestamp of `new Date('2100-01-01')`. -/
def dateCeil : Int := 4102444800000

/-- Model of the CSV pipeline's `applyFilters` (the `!t.deadline` guard in
the date filter is unreachable here: the normalizers always substitute a
default deadline). -/
def applyFiltersCSV (params : SearchParams) (ts : List Tender) : List Tender :=
  let filtered := ts
  let filtered :=
    match params.keywords with
    | some kw =>
        if jsTrim kw ≠ "" then
          let keywords := jsTrim (jsToLower kw)
          filtered.filter (fun t =>
            sIncludes (jsToLower t.title) keywords ||
            sIncludes (jsToLower t.summary) keywords ||
            sIncludes (jsToLower t.organization) keywords ||
            sIncludes (jsToLower t.detailedDescription) keywords)
        else filtered
    | none => filtered
  let filtered :=
    match params.location with
    | some loc =>
        if jsTrim loc ≠ "" then
          let location := jsTrim (jsToLower loc)
          filtered.filter (fun t =>
            sIncludes (jsToLower t.region) location ||
            sIncludes (jsToLower t.organization) location)
        else filtered
    | none => filtered
  let filtered :=
    match params.minValue with
    | some mv => filtered.filter (fun t => jsGe t.value mv)
    | none => filtered
  let filtered :=
    match params.maxValue with
    | some mv => filtered.filter (fun t => jsLe t.value mv)
    | none => filtered
  if params.publishedFrom.isSome || params.publishedTo.isSome then
    filtered.filter (fun t =>
      params.publishedFrom.getD dateFloor ≤ t.deadline &&
      t.deadline ≤ params.publishedTo.getD dateCeil)
  else filtered

/-- Fresh-fetch path of the CSV pipeline's `fetchAndProcessTenders`
(claudeAnalyzer.js third document): parse each downloaded CSV in order,
dedupe by ocid, enrich every tender with placeholder AI data (`rands i`
supplies the two `Math.random()` draws of the i-th enrichment), then
apply the client-side filters.  The session-storage cache branch stores
and replays exactly this list, so the returned tenders always come from
this computation. -/
def fetchAndProcessTendersCore (nowMs : Int) (nowIso : String)
    (dateOf : String → Int) (rands : ℕ → ℚ × ℚ) (params : SearchParams)
    (csvTexts : List String) : List Tender :=
  let allTenders := (csvTexts.map (parseOCDSCSV nowMs nowIso dateOf)).flatten
  let allTenders := dedupeByOcid allTenders
  let allTenders := allTenders.enum.map
    (fun p => enrichTenderWithAI (rands p.1).1 (rands p.1).2 p.2)
  applyFiltersCSV params allTenders

/-! ### Batch enrichment (`analyzeTendersBatch`) -/

/-- Observable events of one batch run: a progress-callback invocation or
an inter-item delay. -/
inductive BatchEvent where
  | progress (done total : ℕ) (t : Tender) : BatchEvent
  | delayMs (ms : ℕ) : BatchEvent

/-- The batch loop.  Each iteration analyzes one tender (a total function:
`analyzeTenderWithClaude` traps every failure internally, so the loop's
own catch block is unreachable for a returning callback), invokes
`onProgress(i + 1, total, enrichedTender)` when a callback function was
supplied, and sleeps 500 ms except after the last item. -/
def analyzeTendersBatchGo (nowIso : String)
    (calls : ℕ → Except ClaudeFailure (Option Json)) (hasCallback : Bool)
    (total : ℕ) : ℕ → List Tender → List Tender × List BatchEvent
  | _, [] => ([], [])
  | i, t :: ts =>
      let enriched := analyzeTenderWithClaude nowIso (calls i) t
      let evs :=
        (if hasCallback then [BatchEvent.progress (i + 1) total enriched] else []) ++
        (if i < total - 1 then [BatchEvent.delayMs 500] else [])
      let rest := analyzeTendersBatchGo nowIso calls hasCallback total (i + 1) ts
      (enriched :: rest.1, evs ++ rest.2)

/-- Model of `analyzeTendersBatch`: an empty input or a missing API key is
a synchronous precondition throw; otherwise the loop runs to completion
and the promise resolves with the result list (the event trace is
returned alongside). -/
def analyzeTendersBatch (nowIso : String) (apiKey : Option String)
    (calls : ℕ → Except ClaudeFailure (Option Json)) (hasCallback : Bool)
    (tenders : List Tender) : Except String (List Tender × List BatchEvent) :=
  if tenders.isEmpty then .error "Invalid tenders array provided"
  else
    match apiKey with
    | none => .error ClaudeFailure.noApiKey.message
    | some _ =>
        .ok (analyzeTendersBatchGo nowIso calls hasCallback tenders.length 0 tenders)

/-- Modelled from the spec (batch contract, §4.6): the expected event
trace — after each item one progress event carrying the 1-based count and
the item's result, followed by one delay except after the last item.
Used as the specification side of the refinement theorem for the batch
loop. -/
def specBatchTrace (outs : List Tender) (total : ℕ) : List BatchEvent :=
  (outs.enum.map (fun p =>
    BatchEvent.progress (p.1 + 1) total p.2 ::
      (if p.1 + 1 < total then [BatchEvent.delayMs 500] else []))).flatten

/-- First arguments of the progress events of a trace. -/
def progressFirsts (evs : List BatchEvent) : List ℕ :=
  evs.filterMap (fun e =>
    match e with
    | .progress d _ _ => some d
    | _ => none)

/-! ### Pure reference sort for the alignment comparator

Specification-side mirror of the effectful sort, used to state and prove
what `filteredAndSortedTenders` computes when every compared tender has a
numeric alignment score (so the comparator never throws). -/

/-- Alignment sort key: the score a tender is ordered by (0 only as a
`getD` default — the refinement theorems assume the score is present). -/
def scoreKey (t : Tender) : ℚ :=
  (fitScore t).getD 0

/-- Pure counterpart of `orderedInsertE` for the alignment comparator. -/
def insertDesc (x : Tender) : List Tender → List Tender
  | [] => [x]
  | y :: ys =>
      if scoreKey y - scoreKey x < 0 then x :: y :: ys else y :: insertDesc x ys

/-- Pure counterpart of `sortTendersE` for the alignment comparator. -/
def sortDesc (ts : List Tender) : List Tender :=
  ts.foldl (fun acc x => insertDesc x acc) []

/-! ### Sample data used by the concrete witnesses and counterexamples -/

/-- A well-formed normalized tender. -/
def sampleTender : Tender :=
  { id := "ocds-1"
    title := "Community Health Services"
    organization := "NHS BNSSG ICB"
    value := some 250000
    deadline := 1760000000000
    status := "new"
    summary := "Community health services for the BNSSG region"
    detailedDescription := "Provision of community health services"
    url := "https://www.contractsfinder.service.gov.uk/notice/ocds-1"
    region := "Bristol"
    categories := ["Healthcare"]
    source := "sample" }

/-- A tender whose deadline (epoch 0) lies before any current date used
below. -/
def sampleExpired : Tender :=
  { sampleTender with id := "ocds-expired", deadline := 0 }

/-- A tender still carrying the error of an earlier failed enrichment. -/
def staleTender : Tender :=
  { sampleTender with analysis_error := some "previous failure" }

/-- A tender with an analyzed `sirona_fit` of score 80. -/
def fitTender : Tender :=
  { sampleTender with
      id := "fit-80"
      sirona_fit := some (.obj [("alignment_score", .num 80),
                                ("recommendation", .str "Conditional Go")]) }

/-- A tender with an analyzed `sirona_fit` of score 90. -/
def fitTender90 : Tender :=
  { sampleTender with
      id := "fit-90"
      sirona_fit := some (.obj [("alignment_score", .num 90),
                                ("recommendation", .str "Strong Go")]) }

/-- A tender with no `sirona_fit` at all. -/
def noFitTender : Tender :=
  { sampleTender with id := "no-fit", sirona_fit := none }

/-- An OCDS release whose tender object exists but has no title (nor any
other field). -/
def titlelessRelease : OcdsRelease := { tender := some {} }

/-- A two-data-row CSV payload; the second row has no recoverable title. -/
def csvSample : String :=
  "ocid,releases/0/tender/title\noc-1,Road Works\noc-2,"

/-- A part_002 notice carrying no monetary field at all. -/
def noMoneyNotice : CfNotice := { title := some "Waste Collection Services" }

/-- An OCDS tender whose `value.amount` is truthy but unparseable. -/
def unparseableTender : OcdsTender :=
  { value := some { amount := some (.str "TBC") } }

/-- A schema-complete reply from the completion endpoint. -/
def validReply : Json :=
  .obj [("alignment_score", .num 85),
        ("rationale", .str "Strong geographic and service fit"),
        ("win_themes", .arr [.str "Local presence", .str "Integrated care", .str "NHS track record"]),
        ("competitors", .arr [.str "Local NHS Trusts", .str "Private providers", .str "Social enterprises"]),
        ("weak_spots", .arr [.str "Capacity", .str "Price pressure"]),
        ("recommendation", .str "Strong Go"),
        ("categories", .arr [.str "Community Health"])]

/-! ## Theorems -/

/-! ### Helper lemmas -/

theorem objHas_objSet_self (fields : List (String × Json)) (k : String) (v : Json) :
    objHas (objSet fields k v) k = true := by
  induction fields with
  | nil => simp [objSet, objHas, objGet]
  | cons hd tl ih =>
      obtain ⟨k2, v2⟩ := hd
      by_cases hk : k2 = k
      · subst hk
        simp [objSet, objHas, objGet]
      · simp [objSet, objHas, objGet, hk] at ih ⊢
        exact ih

theorem objGet_objSet_ne (fields : List (String × Json)) (k : String) (v : Json)
    (k2 : String) (h : k2 ≠ k) : objGet (objSet fields k v) k2 = objGet fields k2 := by
  induction fields with
  | nil =>
      show objGet [(k, v)] k2 = objGet [] k2
      simp only [objGet]
      rw [if_neg (fun hh => h hh.symm)]
  | cons hd tl ih =>
      obtain ⟨k3, v3⟩ := hd
      show objGet (if k3 = k then (k3, v) :: tl else (k3, v3) :: objSet tl k v) k2 =
        objGet ((k3, v3) :: tl) k2
      by_cases hk : k3 = k
      · rw [if_pos hk]
        have hne : ¬ k3 = k2 := fun hh => h (hh.symm.trans hk)
        simp only [objGet]
        rw [if_neg hne, if_neg hne]
      · rw [if_neg hk]
        simp only [objGet]
        by_cases hk2 : k3 = k2
        · rw [if_pos hk2, if_pos hk2]
        · rw [if_neg hk2, if_neg hk2]
          exact ih

/-- A successful `parseClaudeResponse` always yields an object that has
every required field and a `categories` field. -/
theorem parseClaudeResponse_ok (doc : Option Json) (fit : Json)
    (h : parseClaudeResponse doc = .ok fit) :
    ∃ fields, fit = .obj fields ∧ (∀ f ∈ requiredFields, objHas fields f = true) ∧
      objHas fields "categories" = true := by
  match doc with
  | none => simp [parseClaudeResponse] at h
  | some j =>
      match j with
      | .null | .bool _ | .num _ | .str _ | .arr _ =>
          simp [parseClaudeResponse] at h
      | .obj fields0 =>
          rcases hfind : requiredFields.find? (fun f => ! objHas fields0 f) with _ | f
          · have hreq : ∀ f ∈ requiredFields, objHas fields0 f = true := by
              intro f hf
              have := List.find?_eq_none.mp hfind f hf
              simpa using this
            have hncat : ∀ f ∈ requiredFields, f ≠ "categories" := by decide
            rcases hcat : objGet fields0 "categories" with _ | v
            · simp only [parseClaudeResponse, hfind, hcat, Except.ok.injEq] at h
              refine ⟨_, h.symm, ?_, objHas_objSet_self _ _ _⟩
              intro f hf
              rw [objHas, objGet_objSet_ne _ _ _ _ (hncat f hf)]
              exact hreq f hf
            · by_cases htr : jsTruthy v = true
              · simp only [parseClaudeResponse, hfind, hcat, htr, if_true,
                  Except.ok.injEq] at h
                exact ⟨fields0, h.symm, hreq, by rw [objHas, hcat]; rfl⟩
              · simp only [parseClaudeResponse, hfind, hcat, htr, if_false,
                  Bool.false_eq_true, Except.ok.injEq] at h
                refine ⟨_, h.symm, ?_, objHas_objSet_self _ _ _⟩
                intro f hf
                rw [objHas, objGet_objSet_ne _ _ _ _ (hncat f hf)]
                exact hreq f hf
          · simp only [parseClaudeResponse, hfind] at h
            exact Except.noConfusion h

/-- Every failure message built by the analyzer is non-empty. -/
theorem ClaudeFailure.message_ne_empty (e : ClaudeFailure) : e.message ≠ "" := by
  intro h
  have hlen := congrArg String.length h
  cases e <;> simp [ClaudeFailure.message, String.length_append] at hlen <;>
    first
      | exact absurd hlen (by decide)
      | exact absurd hlen.1 (by decide)
      | exact absurd hlen.1.1.1 (by decide)

theorem fallbackFit_score (m : String) :
    jsonNum (fallbackFit m) "alignment_score" = some 50 := rfl

theorem fallbackFit_rec (m : String) :
    jsonStr (fallbackFit m) "recommendation" = some "Monitor" := by
  rfl

/-! ### C1 -/

/-- C1 counterexample: `sampleExpired` has a deadline strictly before the
current date `1760000000000`, yet `analyzeTenderWithClaude` still attempts
the network call (second component `true`) and, when that call fails, the
synthetic result's recommendation is `"Monitor"`, not `"No Bid"` — there
is no expiry short-circuit. -/
theorem C1_counterexample :
    sampleExpired.deadline < (1760000000000 : Int) ∧
    (analyzeTenderWithClaudeRun "2025-10-09T00:00:00.000Z"
        (.error .networkError) sampleExpired).2 = true ∧
    fitRec (analyzeTenderWithClaudeRun "2025-10-09T00:00:00.000Z"
        (.error .networkError) sampleExpired).1 ≠ some "No Bid" := by
  refine ⟨by decide, rfl, by decide⟩

/-- C1 amended: `analyzeTenderWithClaude` performs no deadline pre-check:
even for a tender whose deadline is strictly before the current date the
network call is attempted, and a failing call produces the generic
fallback with recommendation `"Monitor"` (never a synthetic
`"No Bid"/expired` result). -/
theorem C1_no_expiry_precheck (now : Int) (nowIso : String) (e : ClaudeFailure)
    (t : Tender) (h : t.deadline < now) :
    (analyzeTenderWithClaudeRun nowIso (.error e) t).2 = true ∧
    fitRec (analyzeTenderWithClaudeRun nowIso (.error e) t).1 = some "Monitor" := by
  constructor
  · rfl
  · show fitRec { t with
        sirona_fit := some (fallbackFit e.message)
        ai_analyzed := some false
        analysis_error := some e.message } = some "Monitor"
    simp only [fitRec, Option.bind]
    exact fallbackFit_rec e.message

/-- Witness for C1's amended theorem at a concrete expired tender. -/
theorem C1_no_expiry_precheck_witness :
    sampleExpired.deadline < (1 : Int) ∧
    ((analyzeTenderWithClaudeRun "T" (.error .rateLimited) sampleExpired).2 = true ∧
     fitRec (analyzeTenderWithClaudeRun "T" (.error .rateLimited) sampleExpired).1 =
       some "Monitor") :=
  ⟨by decide, C1_no_expiry_precheck 1 "T" .rateLimited sampleExpired (by decide)⟩

/-! ### C2 -/

/-- C2: `enrichOne` (`analyzeTenderWithClaude`) is a total function of the
call outcome — it always resolves.  On a successful, schema-complete reply
it returns the input tender with the validated `sirona_fit` merged,
`ai_analyzed = true` and `analyzed_at` set; on any failure (network error,
non-2xx response, non-JSON reply, or reply missing a required field) it
returns the input tender with the conservative default fit
(`alignment_score` 50, recommendation `"Monitor"`), `ai_analyzed = false`
and a non-empty `analysis_error`. -/
theorem C2_enrichOne_contract (nowIso : String)
    (call : Except ClaudeFailure (Option Json)) (t : Tender) :
    (∀ fit, claudeAnalysis call = .ok fit →
      analyzeTenderWithClaude nowIso call t =
        { t with sirona_fit := some fit, ai_analyzed := some true,
                 analyzed_at := some nowIso } ∧
      ∃ fields, fit = .obj fields ∧
        (∀ f ∈ requiredFields, objHas fields f = true) ∧
        objHas fields "categories" = true) ∧
    (∀ e, claudeAnalysis call = .error e →
      analyzeTenderWithClaude nowIso call t =
        { t with sirona_fit := some (fallbackFit e.message),
                 ai_analyzed := some false,
                 analysis_error := some e.message } ∧
      e.message ≠ "" ∧
      fitScore (analyzeTenderWithClaude nowIso call t) = some 50 ∧
      fitRec (analyzeTenderWithClaude nowIso call t) = some "Monitor") := by
  constructor
  · intro fit hok
    constructor
    · rw [analyzeTenderWithClaude, analyzeTenderWithClaudeRun, hok]
    · match call, hok with
      | .ok doc, hok =>
          exact parseClaudeResponse_ok doc fit hok
  · intro e herr
    have hrun : analyzeTenderWithClaude nowIso call t =
        { t with sirona_fit := some (fallbackFit e.message),
                 ai_analyzed := some false,
                 analysis_error := some e.message } := by
      rw [analyzeTenderWithClaude, analyzeTenderWithClaudeRun, herr]
    refine ⟨hrun, ClaudeFailure.message_ne_empty e, ?_, ?_⟩
    · rw [hrun]
      show (some (fallbackFit e.message)).bind (fun j => jsonNum j "alignment_score") = some 50
      simp only [Option.bind]
      exact fallbackFit_score e.message
    · rw [hrun]
      show (some (fallbackFit e.message)).bind (fun j => jsonStr j "recommendation") = some "Monitor"
      simp only [Option.bind]
      exact fallbackFit_rec e.message

/-- Witness for C2 at a concrete successful reply and a concrete network
failure. -/
theorem C2_enrichOne_contract_witness :
    (analyzeTenderWithClaude "T" (.ok (some validReply)) sampleTender =
      { sampleTender with sirona_fit := some validReply, ai_analyzed := some true,
                          analyzed_at := some "T" }) ∧
    (analyzeTenderWithClaude "T" (.error .networkError) sampleTender =
      { sampleTender with
          sirona_fit := some (fallbackFit ClaudeFailure.networkError.message),
          ai_analyzed := some false,
          analysis_error := some ClaudeFailure.networkError.message }) ∧
    ClaudeFailure.networkError.message ≠ "" :=
  ⟨((C2_enrichOne_contract "T" (.ok (some validReply)) sampleTender).1
      validReply rfl).1,
   ((C2_enrichOne_contract "T" (.error .networkError) sampleTender).2
      .networkError rfl).1,
   ((C2_enrichOne_contract "T" (.error .networkError) sampleTender).2
      .networkError rfl).2.1⟩

/-! ### C9 -/

/-- C9 counterexample: a tender still carrying `analysis_error` from an
earlier failed attempt is enriched successfully — the result has
`ai_analyzed = true` AND still carries the old `analysis_error` (the
success branch spreads the old tender and never deletes the field),
contradicting the claim that a successfully enriched tender carries no
`analysis_error`. -/
theorem C9_counterexample :
    (analyzeTenderWithClaude "T" (.ok (some validReply)) staleTender).ai_analyzed =
      some true ∧
    (analyzeTenderWithClaude "T" (.ok (some validReply)) staleTender).analysis_error =
      some "previous failure" :=
  ⟨rfl, rfl⟩

/-- C9 amended: a successful `enrichOne` sets `ai_analyzed = true` but
preserves any pre-existing `analysis_error` rather than clearing it; the
claimed invariant (`analysis_error` present only with
`ai_analyzed = false`) therefore holds exactly for input tenders that do
not already carry an `analysis_error`. -/
theorem C9_error_flag_iff (nowIso : String)
    (call : Except ClaudeFailure (Option Json)) (t : Tender)
    (h : t.analysis_error = none) :
    ((analyzeTenderWithClaude nowIso call t).ai_analyzed = some true ↔
      (analyzeTenderWithClaude nowIso call t).analysis_error = none) := by
  rcases hres : claudeAnalysis call with e | fit
  · rw [analyzeTenderWithClaude, analyzeTenderWithClaudeRun, hres]
    constructor
    · intro hc
      simp at hc
    · intro hc
      simp at hc
  · rw [analyzeTenderWithClaude, analyzeTenderWithClaudeRun, hres]
    constructor
    · intro _
      exact h
    · intro _
      rfl

/-- Witness for C9's amended theorem at a tender without a prior error. -/
theorem C9_error_flag_iff_witness :
    sampleTender.analysis_error = none ∧
    ((analyzeTenderWithClaude "T" (.error .networkError) sampleTender).ai_analyzed =
        some true ↔
      (analyzeTenderWithClaude "T" (.error .networkError) sampleTender).analysis_error =
        none) :=
  ⟨rfl, C9_error_flag_iff "T" (.error .networkError) sampleTender rfl⟩

/-! ### C4 -/

theorem fitScore_eq_some {t : Tender} {q : ℚ} (h : fitScore t = some q) :
    ∃ j, t.sirona_fit = some j ∧ jsonNum j "alignment_score" = some q := by
  rcases hj : t.sirona_fit with _ | j
  · rw [fitScore, hj] at h
    exact Option.noConfusion h
  · rw [fitScore, hj] at h
    exact ⟨j, rfl, h⟩

/-- With the alignment-score comparator, insertion never throws and agrees
with the pure reference insertion when every element has a score. -/
theorem orderedInsertE_alignment (x : Tender) (l : List Tender)
    (hx : (fitScore x).isSome) (hl : ∀ y ∈ l, (fitScore y).isSome) :
    orderedInsertE (tenderComparator "alignment-desc") x l = .ok (insertDesc x l) := by
  induction l with
  | nil => rfl
  | cons y ys ih =>
      obtain ⟨qx, hqx⟩ := Option.isSome_iff_exists.mp hx
      obtain ⟨qy, hqy⟩ := Option.isSome_iff_exists.mp (hl y (by simp))
      obtain ⟨jx, hjx, hjx2⟩ := fitScore_eq_some hqx
      obtain ⟨jy, hjy, hjy2⟩ := fitScore_eq_some hqy
      have hcmp : tenderComparator "alignment-desc" x y = .ok (qy - qx) := by
        simp only [tenderComparator, hjx, hjy, hjx2, hjy2, jsSub]
      have hkey : scoreKey y - scoreKey x = qy - qx := by
        simp [scoreKey, hqx, hqy]
      rw [orderedInsertE, hcmp, insertDesc, hkey]
      simp only [bind, Except.bind]
      by_cases hlt : qy - qx < 0
      · rw [if_pos hlt, if_pos hlt]
        rfl
      · rw [if_neg hlt, if_neg hlt, ih (fun z hz => hl z (by simp [hz]))]
        rfl

/-- Inserting preserves membership up to permutation. -/
theorem insertDesc_perm (x : Tender) (l : List Tender) :
    (insertDesc x l).Perm (x :: l) := by
  induction l with
  | nil => exact List.Perm.refl _
  | cons y ys ih =>
      rw [insertDesc]
      by_cases hlt : scoreKey y - scoreKey x < 0
      · rw [if_pos hlt]
      · rw [if_neg hlt]
        exact (ih.cons y).trans (List.Perm.swap x y ys)

/-- Inserting preserves descending-score pairwise order. -/
theorem insertDesc_pairwise (x : Tender) (l : List Tender)
    (hp : l.Pairwise (fun a b => scoreKey b ≤ scoreKey a)) :
    (insertDesc x l).Pairwise (fun a b => scoreKey b ≤ scoreKey a) := by
  induction l with
  | nil => simp [insertDesc]
  | cons y ys ih =>
      rw [insertDesc]
      by_cases hlt : scoreKey y - scoreKey x < 0
      · rw [if_pos hlt]
        have hyx : scoreKey y < scoreKey x := by linarith
        refine List.Pairwise.cons ?_ hp
        intro z hz
        rcases List.mem_cons.mp hz with hz | hz
        · subst hz
          exact le_of_lt hyx
        · have := (List.pairwise_cons.mp hp).1 z hz
          linarith
      · rw [if_neg hlt]
        have hxy : scoreKey x ≤ scoreKey y := by linarith [not_lt.mp hlt]
        refine List.Pairwise.cons ?_ (ih (List.pairwise_cons.mp hp).2)
        intro z hz
        have hz2 := (insertDesc_perm x ys).mem_iff.mp hz
        rcases List.mem_cons.mp hz2 with hz2 | hz2
        · subst hz2
          exact hxy
        · exact (List.pairwise_cons.mp hp).1 z hz2

/-- The effectful sort refines the pure reference sort when all scores are
present. -/
theorem sortTendersE_alignment (ts : List Tender)
    (hall : ∀ t ∈ ts, (fitScore t).isSome) :
    sortTendersE (tenderComparator "alignment-desc") ts = .ok (sortDesc ts) := by
  rw [sortTendersE, sortDesc]
  have main : ∀ (l : List Tender) (acc : List Tender),
      (∀ t ∈ l, (fitScore t).isSome) → (∀ t ∈ acc, (fitScore t).isSome) →
      List.foldlM (fun acc x => orderedInsertE (tenderComparator "alignment-desc") x acc)
          acc l =
        .ok (l.foldl (fun acc x => insertDesc x acc) acc) := by
    intro l
    induction l with
    | nil => intro acc _ _; rfl
    | cons t l2 ih =>
        intro acc hl hacc
        have hacc2 : ∀ z ∈ insertDesc t acc, (fitScore z).isSome := by
          intro z hz
          rcases List.mem_cons.mp ((insertDesc_perm t acc).mem_iff.mp hz) with hz2 | hz2
          · rw [hz2]
            exact hl t (by simp)
          · exact hacc z hz2
        rw [List.foldlM_cons, orderedInsertE_alignment t acc (hl t (by simp)) hacc]
        simp only [bind, Except.bind]
        rw [ih (insertDesc t acc) (fun z hz => hl z (by simp [hz])) hacc2]
        rfl
  exact main ts [] hall (by intro t ht; exact absurd ht (List.not_mem_nil t))

/-- The pure reference sort is a permutation of its input. -/
theorem sortDesc_perm (ts : List Tender) : (sortDesc ts).Perm ts := by
  rw [sortDesc]
  have main : ∀ (l acc : List Tender),
      (l.foldl (fun acc x => insertDesc x acc) acc).Perm (acc ++ l) := by
    intro l
    induction l with
    | nil => intro acc; simp
    | cons t l2 ih =>
        intro acc
        rw [List.foldl_cons]
        refine (ih (insertDesc t acc)).trans ?_
        have h1 : (insertDesc t acc ++ l2).Perm ((t :: acc) ++ l2) :=
          (insertDesc_perm t acc).append_right l2
        refine h1.trans ?_
        simp only [List.cons_append]
        exact List.perm_middle.symm
  simpa using main ts []

/-- The pure reference sort is pairwise descending. -/
theorem sortDesc_pairwise (ts : List Tender) :
    (sortDesc ts).Pairwise (fun a b => scoreKey b ≤ scoreKey a) := by
  rw [sortDesc]
  have main : ∀ (l acc : List Tender),
      acc.Pairwise (fun a b => scoreKey b ≤ scoreKey a) →
      (l.foldl (fun acc x => insertDesc x acc) acc).Pairwise
        (fun a b => scoreKey b ≤ scoreKey a) := by
    intro l
    induction l with
    | nil => intro acc h; simpa using h
    | cons t l2 ih =>
        intro acc h
        rw [List.foldl_cons]
        exact ih (insertDesc t acc) (insertDesc_pairwise t acc h)
  exact main ts [] (List.Pairwise.nil)

/-- The all-pass filter returns the list unchanged. -/
theorem filterTendersE_all (ts : List Tender) :
    filterTendersE "all" "all" [] ts = .ok ts := by
  induction ts with
  | nil => rfl
  | cons t ts2 ih =>
      show (do
        let keep ← passesFilters "all" "all" [] t
        let rest ← filterTendersE "all" "all" [] ts2
        pure (if keep then t :: rest else rest)) = .ok (t :: ts2)
      have hp : passesFilters "all" "all" [] t = .ok true := rfl
      rw [hp, ih]
      rfl

/-- C4 counterexample: sorting a two-tender list by `alignment-desc` where
the second tender has no `sirona_fit` throws a TypeError (the comparator
dereferences the missing `sirona_fit`) instead of treating the missing
score as 0 and returning the list. -/
theorem C4_counterexample :
    noFitTender.sirona_fit = none ∧
    fitScore fitTender = some 80 ∧
    (∃ msg, filteredAndSortedTenders "all" "all" [] "alignment-desc"
        [fitTender, noFitTender] = .error msg) :=
  ⟨rfl, rfl, ⟨"TypeError: cannot read property alignment_score of null/undefined", rfl⟩⟩

/-- C4 amended: the `alignment-desc` sort does NOT tolerate a missing
`sirona_fit` — the comparator throws on it (see the counterexample).  When
every tender in the list carries a `sirona_fit` with a numeric
`alignment_score`, the view does not throw and returns a permutation of
the input ordered by descending alignment score. -/
theorem C4_alignment_sort (ts : List Tender)
    (hall : ∀ t ∈ ts, (fitScore t).isSome) :
    ∃ out, filteredAndSortedTenders "all" "all" [] "alignment-desc" ts = .ok out ∧
      out.Perm ts ∧
      out.Pairwise (fun a b => scoreKey b ≤ scoreKey a) := by
  refine ⟨sortDesc ts, ?_, sortDesc_perm ts, sortDesc_pairwise ts⟩
  rw [filteredAndSortedTenders]
  rw [filterTendersE_all ts]
  show sortTendersE (tenderComparator "alignment-desc") ts = .ok (sortDesc ts)
  exact sortTendersE_alignment ts hall

/-- Witness for C4's amended theorem at a concrete two-tender list. -/
theorem C4_alignment_sort_witness :
    ∃ out, filteredAndSortedTenders "all" "all" [] "alignment-desc"
        [fitTender, fitTender90] = .ok out ∧
      out.Perm [fitTender, fitTender90] ∧
      out.Pairwise (fun a b => scoreKey b ≤ scoreKey a) :=
  C4_alignment_sort [fitTender, fitTender90] (by decide)

/-! ### C8 -/

theorem dedupeByGo_congr {α : Type} (key : α → String) (seen1 seen2 : List String)
    (h : ∀ s, s ∈ seen1 ↔ s ∈ seen2) :
    ∀ xs, dedupeByGo key seen1 xs = dedupeByGo key seen2 xs := by
  intro xs
  induction xs generalizing seen1 seen2 with
  | nil => rfl
  | cons x rest ih =>
      rw [dedupeByGo, dedupeByGo]
      by_cases hx : key x ∈ seen1
      · rw [if_pos hx, if_pos ((h _).mp hx)]
        exact ih seen1 seen2 h
      · rw [if_neg hx, if_neg (fun hc => hx ((h _).mpr hc))]
        have h2 : ∀ s, s ∈ key x :: seen1 ↔ s ∈ key x :: seen2 := by
          intro s
          simp only [List.mem_cons]
          exact or_congr Iff.rfl (h s)
        rw [ih (key x :: seen1) (key x :: seen2) h2]

theorem dedupeByGo_seen_filter {α : Type} (key : α → String) (k : String)
    (seen : List String) :
    ∀ xs, dedupeByGo key (k :: seen) xs =
      dedupeByGo key seen (xs.filter (fun x => key x != k)) := by
  intro xs
  induction xs generalizing seen with
  | nil => rfl
  | cons x rest ih =>
      by_cases hk : key x = k
      · have h1 : key x ∈ k :: seen := by simp [hk]
        rw [dedupeByGo, if_pos h1, List.filter_cons]
        have h2 : (key x != k) = false := by simp [hk]
        rw [h2]
        simp only [Bool.false_eq_true, if_false]
        exact ih seen
      · rw [dedupeByGo, List.filter_cons]
        have h2 : (key x != k) = true := by simp [hk]
        rw [h2]
        simp only [if_true]
        rw [dedupeByGo]
        by_cases hs : key x ∈ seen
        · have h1 : key x ∈ k :: seen := by simp [hs]
          rw [if_pos h1, if_pos hs]
          exact ih seen
        · have h1 : key x ∉ k :: seen := by
            simp only [List.mem_cons]
            rintro (hc | hc)
            · exact hk hc
            · exact hs hc
          rw [if_neg h1, if_neg hs]
          have hcongr : ∀ s, s ∈ key x :: k :: seen ↔ s ∈ k :: key x :: seen := by
            intro s
            simp only [List.mem_cons]
            tauto
          rw [dedupeByGo_congr key _ _ hcongr rest, ih (key x :: seen)]

/-- First-occurrence-wins characterization: the head is always kept and
shadows every later element with the same key. -/
theorem dedupeByKey_cons {α : Type} (key : α → String) (x : α) (xs : List α) :
    dedupeByKey key (x :: xs) =
      x :: dedupeByKey key (xs.filter (fun y => key y != key x)) := by
  rw [dedupeByKey, dedupeByGo, if_neg (List.not_mem_nil (key x))]
  rw [dedupeByGo_seen_filter key (key x) [] xs]
  rfl

theorem dedupeByGo_sublist {α : Type} (key : α → String) (seen : List String)
    (xs : List α) : (dedupeByGo key seen xs).Sublist xs := by
  induction xs generalizing seen with
  | nil => exact List.Sublist.refl _
  | cons x rest ih =>
      rw [dedupeByGo]
      by_cases hx : key x ∈ seen
      · rw [if_pos hx]
        exact (ih seen).cons x
      · rw [if_neg hx]
        exact (ih (key x :: seen)).cons₂ x

theorem dedupeByGo_covers {α : Type} (key : α → String) :
    ∀ (xs : List α) (seen : List String) (x : α), x ∈ xs → key x ∉ seen →
      ∃ y ∈ dedupeByGo key seen xs, key y = key x := by
  intro xs
  induction xs with
  | nil => intro seen x hx; exact absurd hx (List.not_mem_nil x)
  | cons z rest ih =>
      intro seen x hx hxs
      rcases List.mem_cons.mp hx with hx | hx
      · have hz : key z ∉ seen := by rw [← hx]; exact hxs
        rw [dedupeByGo, if_neg hz]
        exact ⟨z, by simp, by rw [hx]⟩
      · rw [dedupeByGo]
        by_cases hz : key z ∈ seen
        · rw [if_pos hz]
          exact ih seen x hx hxs
        · rw [if_neg hz]
          by_cases hkk : key x = key z
          · exact ⟨z, by simp, hkk.symm⟩
          · have hxs2 : key x ∉ key z :: seen := by
              simp only [List.mem_cons]
              rintro (hc | hc)
              · exact hkk hc
              · exact hxs hc
            obtain ⟨y, hy1, hy2⟩ := ih (key z :: seen) x hx hxs2
            exact ⟨y, by simp [hy1], hy2⟩

theorem dedupeByGo_not_seen {α : Type} (key : α → String) :
    ∀ (xs : List α) (seen : List String) (y : α), y ∈ dedupeByGo key seen xs →
      key y ∉ seen := by
  intro xs
  induction xs with
  | nil => intro seen y hy; exact absurd hy (List.not_mem_nil y)
  | cons z rest ih =>
      intro seen y hy
      rw [dedupeByGo] at hy
      by_cases hz : key z ∈ seen
      · rw [if_pos hz] at hy
        exact ih seen y hy
      · rw [if_neg hz] at hy
        rcases List.mem_cons.mp hy with hy | hy
        · rw [hy]; exact hz
        · have := ih (key z :: seen) y hy
          intro hc
          exact this (by simp [hc])

theorem dedupeByGo_keys_nodup {α : Type} (key : α → String) :
    ∀ (xs : List α) (seen : List String),
      ((dedupeByGo key seen xs).map key).Nodup := by
  intro xs
  induction xs with
  | nil => intro seen; simp [dedupeByGo]
  | cons z rest ih =>
      intro seen
      rw [dedupeByGo]
      by_cases hz : key z ∈ seen
      · rw [if_pos hz]
        exact ih seen
      · rw [if_neg hz]
        rw [List.map_cons]
        refine List.Nodup.cons ?_ (ih (key z :: seen))
        intro hc
        obtain ⟨y, hy1, hy2⟩ := List.mem_map.mp hc
        have := dedupeByGo_not_seen key rest (key z :: seen) y hy1
        exact this (by simp [hy2])

theorem dedupeByKey_of_nodup_keys {α : Type} (key : α → String) :
    ∀ (xs : List α), ((xs.map key).Nodup) → dedupeByKey key xs = xs := by
  intro xs
  induction xs with
  | nil => intro _; rfl
  | cons x rest ih =>
      intro hnd
      rw [List.map_cons, List.nodup_cons] at hnd
      have hfil : rest.filter (fun y => key y != key x) = rest := by
        apply List.filter_eq_self.mpr
        intro y hy
        simp only [bne_iff_ne, ne_eq, decide_eq_true_eq]
        intro hc
        exact hnd.1 (List.mem_map.mpr ⟨y, hy, hc⟩)
      rw [dedupeByKey_cons, hfil, ih hnd.2]

theorem dedupeByKey_idem {α : Type} (key : α → String) (xs : List α) :
    dedupeByKey key (dedupeByKey key xs) = dedupeByKey key xs :=
  dedupeByKey_of_nodup_keys key _ (dedupeByGo_keys_nodup key xs [])

/-- C8: both dedupe strategies — by exact `id` (CSV pipeline) and by the
lowercased title+organization composite key (`mergeTenderData`) — keep
exactly the first occurrence of each key (head kept, later same-key
elements filtered), preserve relative input order (the output is a
sublist of the input), represent every input key, produce key-distinct
output, and are idempotent. -/
theorem C8_dedupe_contract (ts cf ft : List Tender) :
    (dedupeByOcid ts).Sublist ts ∧
    ((dedupeByOcid ts).map (fun t => t.id)).Nodup ∧
    (∀ t ∈ ts, ∃ y ∈ dedupeByOcid ts, y.id = t.id) ∧
    dedupeByOcid (dedupeByOcid ts) = dedupeByOcid ts ∧
    (∀ (x : Tender) (xs : List Tender), dedupeByOcid (x :: xs) =
      x :: dedupeByOcid (xs.filter (fun y => y.id != x.id))) ∧
    (mergeTenderData cf ft).Sublist (cf ++ ft) ∧
    ((mergeTenderData cf ft).map compositeKey).Nodup ∧
    (∀ t ∈ cf ++ ft, ∃ y ∈ mergeTenderData cf ft, compositeKey y = compositeKey t) ∧
    mergeTenderData (mergeTenderData cf ft) [] = mergeTenderData cf ft := by
  refine ⟨dedupeByGo_sublist _ [] ts, dedupeByGo_keys_nodup _ ts [],
    ?_, dedupeByKey_idem _ ts, ?_, dedupeByGo_sublist _ [] (cf ++ ft),
    dedupeByGo_keys_nodup _ (cf ++ ft) [], ?_, ?_⟩
  · intro t ht
    exact dedupeByGo_covers _ ts [] t ht (List.not_mem_nil _)
  · intro x xs
    exact dedupeByKey_cons (fun t => t.id) x xs
  · intro t ht
    exact dedupeByGo_covers _ (cf ++ ft) [] t ht (List.not_mem_nil _)
  · show dedupeByKey compositeKey (dedupeByKey compositeKey (cf ++ ft) ++ []) = _
    rw [List.append_nil]
    exact dedupeByKey_idem _ (cf ++ ft)

/-- Witness for C8 at a concrete list with duplicate ids and composite
keys. -/
theorem C8_dedupe_contract_witness :
    dedupeByOcid [sampleTender, fitTender, sampleTender] = [sampleTender, fitTender] ∧
    (∃ y ∈ dedupeByOcid [sampleTender, fitTender, sampleTender],
      y.id = sampleTender.id) ∧
    mergeTenderData [sampleTender] [sampleTender, fitTender90] = [sampleTender] := by
  have h := C8_dedupe_contract [sampleTender, fitTender, sampleTender]
    [sampleTender] [sampleTender, fitTender90]
  refine ⟨rfl, ?_, rfl⟩
  exact h.2.2.1 sampleTender (by simp)

/-! ### C5 -/

theorem jsOrStrO_ne_empty (v : Option String) (d : String) (hd : d ≠ "") :
    jsOrStrO v d ≠ "" := by
  match v with
  | none => exact hd
  | some s =>
      rw [jsOrStrO]
      by_cases hs : s = ""
      · rw [if_pos hs]; exact hd
      · rw [if_neg hs]; exact hs

theorem csvRowToTender_some (nowMs : Int) (nowIso : String) (dateOf : String → Int)
    (headers : List String) (i : ℕ) (line : String) (t : Tender)
    (h : csvRowToTender nowMs nowIso dateOf headers i line = some t) :
    t.title ≠ "" ∧ t.title ≠ "Untitled Tender" := by
  simp only [csvRowToTender] at h
  split at h
  · exact Option.noConfusion h
  · next hguard =>
      push_neg at hguard
      obtain ⟨h1, h2⟩ := hguard
      have ht := (Option.some.injEq _ _).mp h
      rw [← ht]
      exact ⟨h1, h2⟩

theorem csvRowsToTenders_title (nowMs : Int) (nowIso : String)
    (dateOf : String → Int) (headers : List String) :
    ∀ (lines : List String) (i : ℕ),
      ∀ t ∈ csvRowsToTenders nowMs nowIso dateOf headers i lines,
        t.title ≠ "" ∧ t.title ≠ "Untitled Tender" := by
  intro lines
  induction lines with
  | nil => intro i t ht; exact absurd ht (List.not_mem_nil t)
  | cons line rest ih =>
      intro i t ht
      rw [csvRowsToTenders] at ht
      rcases hrow : csvRowToTender nowMs nowIso dateOf headers i line with _ | t0
      · rw [hrow] at ht
        exact ih (i + 1) t ht
      · rw [hrow] at ht
        rcases List.mem_cons.mp ht with ht | ht
        · rw [ht]
          exact csvRowToTender_some nowMs nowIso dateOf headers i line t0 hrow
        · exact ih (i + 1) t ht

/-- C5 counterexample: an OCDS JSON release whose tender has no title in
any alias is NOT rejected by `parseOCDSResponse` — it is kept with the
placeholder title `"Untitled Tender"`. -/
theorem C5_counterexample :
    titlelessRelease.tender = some ({} : OcdsTender) ∧
    (parseOCDSResponse 0 "T" (fun _ => none) [titlelessRelease]).length = 1 ∧
    (parseOCDSResponse 0 "T" (fun _ => none) [titlelessRelease]).map
      (fun t => t.title) = ["Untitled Tender"] :=
  ⟨rfl, rfl, rfl⟩

/-- C5 amended: the CSV normalizer (`parseOCDSCSV`) does drop records with
no recoverable title, so its tenders never carry the empty or placeholder
title; the OCDS JSON normalizer (`parseOCDSResponse`) instead keeps such
records under the placeholder title `"Untitled Tender"` (see the
counterexample).  In both pipelines every produced Tender has a non-empty
title. -/
theorem C5_title_invariant :
    (∀ (nowMs : Int) (nowIso : String) (dateOf : String → Int) (csvText : String),
      ∀ t ∈ parseOCDSCSV nowMs nowIso dateOf csvText,
        t.title ≠ "" ∧ t.title ≠ "Untitled Tender") ∧
    (∀ (nowMs : Int) (nowIso : String) (dateOf : String → Option Int)
        (releases : List OcdsRelease),
      ∀ t ∈ parseOCDSResponse nowMs nowIso dateOf releases, t.title ≠ "") := by
  constructor
  · intro nowMs nowIso dateOf csvText t ht
    rw [parseOCDSCSV] at ht
    split at ht
    · exact absurd ht (List.not_mem_nil t)
    · split at ht
      · exact absurd ht (List.not_mem_nil t)
      · exact absurd ht (List.not_mem_nil t)
      · exact csvRowsToTenders_title nowMs nowIso dateOf _ _ 1 t ht
  · intro nowMs nowIso dateOf releases t ht
    rw [parseOCDSResponse] at ht
    obtain ⟨p, _, hp2⟩ := List.mem_map.mp ht
    rw [← hp2]
    show jsOrStrO (p.2.tender.getD {}).title "Untitled Tender" ≠ ""
    exact jsOrStrO_ne_empty _ _ (by decide)

/-- Witness for C5's amended theorem: in the sample CSV the titleless
second row is dropped (only `oc-1` survives) and the surviving tender's
title is non-empty. -/
theorem C5_title_invariant_witness :
    (parseOCDSCSV 0 "T" (fun _ => 0) csvSample).map (fun t => t.id) = ["oc-1"] ∧
    ((parseOCDSCSV 0 "T" (fun _ => 0) csvSample).headD sampleTender).title ≠ "" ∧
    ((parseOCDSCSV 0 "T" (fun _ => 0) csvSample).headD sampleTender).title ≠
      "Untitled Tender" := by
  refine ⟨rfl, ?_⟩
  exact C5_title_invariant.1 0 "T" (fun _ => 0) csvSample
    ((parseOCDSCSV 0 "T" (fun _ => 0) csvSample).headD sampleTender)
    (List.mem_cons_self _ _)

/-! ### C6 -/

/-- C6 counterexample: a part_002 notice with every monetary field absent
normalizes to a tender whose `value` is 0, not the documented non-zero
fallback minimum (100000) — `parseValue` falls through to `return 0`. -/
theorem C6_counterexample :
    noMoneyNotice.value = none ∧ noMoneyNotice.minValue = none ∧
    noMoneyNotice.estimatedValue = none ∧
    (parseContractsFinderData 0 "T" (fun _ => none) [noMoneyNotice]).map
      (fun t => t.value) = [some 0] ∧
    (0 : ℚ) ≠ 100000 :=
  ⟨rfl, rfl, rfl, rfl, by decide⟩

/-- C6 amended: the OCDS JSON `extractValue` substitutes the non-zero
fallback 100000 only when no monetary field is present-and-truthy, and
yields 0 for a truthy but unparseable `value.amount`; the CSV pipeline's
`parseFloat(valueAmount) || 100000` does substitute 100000 on parse
failure; part_002's `parseValue` instead falls back to 0 for absent or
unparseable monetary fields. -/
theorem C6_value_fallbacks :
    (∀ t : OcdsTender, t.value = none → t.minValue = none →
      t.estimatedValue = none → extractValue t = 100000 ∧ (0 : ℚ) < 100000) ∧
    (∀ (t : OcdsTender) (s : String), t.value = some { amount := some (.str s) } →
      s ≠ "" → jsParseFloat s = none → extractValue t = 0) ∧
    (parseValue none = some 0) ∧
    (∀ s, jsParseFloat (cleanCurrency s) = none →
      parseValue (some (.str s)) = some 0) ∧
    (∀ s, jsParseFloat s = none → csvParseValue s = 100000) := by
  refine ⟨?_, ?_, rfl, ?_, ?_⟩
  · intro t h1 h2 h3
    rw [extractValue, h1, h2, h3]
    exact ⟨rfl, by decide⟩
  · intro t s hval hs hparse
    rw [extractValue, hval]
    have htr : amountTruthy (some { amount := some (.str s) }) = true := by
      simp [amountTruthy, StrNum.truthy, hs]
    rw [if_pos htr]
    simp [amountParsed, StrNum.parseFloatVal, hparse]
  · intro s hparse
    simp [parseValue, hparse]
  · intro s hparse
    simp [csvParseValue, hparse]

/-- Witness for C6's amended theorem at concrete monetary inputs. -/
theorem C6_value_fallbacks_witness :
    extractValue {} = 100000 ∧
    extractValue unparseableTender = 0 ∧
    parseValue none = some 0 ∧
    parseValue (some (.str "price on application")) = some 0 ∧
    csvParseValue "N/A" = 100000 := by
  have h := C6_value_fallbacks
  exact ⟨(h.1 {} rfl rfl rfl).1,
         h.2.1 unparseableTender "TBC" rfl (by decide) rfl,
         h.2.2.1,
         h.2.2.2.1 "price on application" rfl,
         h.2.2.2.2 "N/A" rfl⟩

/-! ### C7 -/

theorem string_push_append (s : String) (c : Char) (l : List Char) :
    (s.push c) ++ String.mk l = s ++ String.mk (c :: l) := by
  cases s with
  | mk d => exact congrArg String.mk (by simp)

theorem string_append_empty_list (s : String) : s ++ String.mk [] = s := by
  cases s with
  | mk d => exact congrArg String.mk (by simp)

theorem dropWhile_all_false (p : Char → Bool) :
    ∀ l : List Char, (∀ c ∈ l, p c = false) → l.dropWhile p = l := by
  intro l h
  cases l with
  | nil => rfl
  | cons c rest =>
      rw [List.dropWhile_cons, h c (by simp)]
      simp

theorem jsTrim_clean (s : String) (h : ∀ c ∈ s.data, isJsWhitespace c = false) :
    jsTrim s = s := by
  rw [jsTrim, dropWhile_all_false _ _ h,
      dropWhile_all_false _ _ (fun c hc => h c (List.mem_reverse.mp hc)),
      List.reverse_reverse]

theorem mem_of_getLast?_eq (l : List Char) (a : Char) (h : l.getLast? = some a) :
    a ∈ l := by
  induction l with
  | nil => exact Option.noConfusion h
  | cons c rest ih =>
      cases hr : rest with
      | nil =>
          rw [hr] at h
          have : c = a := by simpa [List.getLast?] using h
          simp [this]
      | cons d rest2 =>
          rw [hr] at h ih
          rw [List.getLast?_cons_cons] at h
          exact List.mem_cons_of_mem c (ih h)

theorem stripEdgeQuotes_noquote (s : String) (h : ∀ c ∈ s.data, c ≠ '"') :
    stripEdgeQuotes s = s := by
  simp only [stripEdgeQuotes]
  have h1 : ¬ s.data.head? = some '"' := by
    intro hc
    cases hd : s.data with
    | nil => rw [hd] at hc; exact Option.noConfusion hc
    | cons c rest =>
        rw [hd] at hc
        have hca : c = '"' := by simpa using hc
        exact h c (by rw [hd]; simp) hca
  rw [if_neg h1]
  have h2 : ¬ s.data.getLast? = some '"' := by
    intro hc
    exact h '"' (mem_of_getLast?_eq s.data '"' hc) rfl
  rw [if_neg h2]

/-- Inside quotes, a quote-free run of characters is appended to the
current token without splitting. -/
theorem parseCSVLineAux_inQuotes (cs : List Char) (h : ∀ c ∈ cs, c ≠ '"') :
    ∀ (rest : List Char) (cur : String) (res : List String),
      parseCSVLineAux (cs ++ rest) cur true res =
        parseCSVLineAux rest (cur ++ String.mk cs) true res := by
  induction cs with
  | nil =>
      intro rest cur res
      rw [List.nil_append, string_append_empty_list]
  | cons c cs2 ih =>
      intro rest cur res
      rw [List.cons_append, parseCSVLineAux]
      rw [if_neg (by simp [h c (List.mem_cons_self c cs2)])]
      rw [if_neg (by simp)]
      rw [ih (fun x hx => h x (List.mem_cons_of_mem c hx)) rest (cur.push c) res,
          string_push_append]

/-- C7 counterexample: a field written `"a""b"` tokenizes to `ab`, not to
`a"b` — the scanner deletes every quote character instead of un-escaping
doubled quotes. -/
theorem C7_counterexample :
    parseCSVLine "\"a\"\"b\"" = ["ab"] ∧ parseCSVLine "\"a\"\"b\"" ≠ ["a\"b"] :=
  ⟨rfl, by decide⟩

theorem parseCSVLine_quoted (s : String)
    (h : ∀ c ∈ s.data, c ≠ '"' ∧ isJsWhitespace c = false) :
    parseCSVLine ("\"" ++ s ++ "\"") = [s] := by
  cases s with
  | mk d =>
      have h' : ∀ c ∈ d, c ≠ '"' ∧ isJsWhitespace c = false := h
      show (parseCSVLineAux (('"' :: d) ++ ['"']) "" false []).map
        (fun v => jsTrim (stripEdgeQuotes v)) = [String.mk d]
      rw [List.cons_append, parseCSVLineAux, if_pos (by simp)]
      simp only [Bool.not_false, Bool.not_true]
      rw [parseCSVLineAux_inQuotes d (fun c hc => (h' c hc).1) ['"'] "" []]
      have hcur : "" ++ String.mk d = String.mk d := by
        exact congrArg String.mk (by simp)
      rw [hcur, parseCSVLineAux, if_pos (by simp)]
      simp only [Bool.not_false, Bool.not_true]
      rw [parseCSVLineAux]
      simp only [List.nil_append, List.map]
      rw [jsTrim_clean _ (fun c hc => (h' c hc).2),
          stripEdgeQuotes_noquote _ (fun c hc => (h' c hc).1),
          jsTrim_clean _ (fun c hc => (h' c hc).2)]

theorem parseCSVLine_doubled (a b : String)
    (ha : ∀ c ∈ a.data, c ≠ '"' ∧ isJsWhitespace c = false)
    (hb : ∀ c ∈ b.data, c ≠ '"' ∧ isJsWhitespace c = false) :
    parseCSVLine ("\"" ++ a ++ "\"\"" ++ b ++ "\"") = [a ++ b] := by
  cases a with
  | mk da =>
      cases b with
      | mk db =>
          have ha' : ∀ c ∈ da, c ≠ '"' ∧ isJsWhitespace c = false := ha
          have hb' : ∀ c ∈ db, c ≠ '"' ∧ isJsWhitespace c = false := hb
          have hdata : ("\"" ++ String.mk da ++ "\"\"" ++ String.mk db ++ "\"").data =
              '"' :: (da ++ ('"' :: ('"' :: (db ++ ['"'])))) := by
            show ((((['"'] ++ da) ++ ['"', '"']) ++ db) ++ ['"']) = _
            simp
          rw [parseCSVLine, hdata, parseCSVLineAux, if_pos (by simp)]
          simp only [Bool.not_false, Bool.not_true]
          rw [parseCSVLineAux_inQuotes da (fun c hc => (ha' c hc).1)
            ('"' :: ('"' :: (db ++ ['"']))) "" []]
          rw [parseCSVLineAux, if_pos (by simp)]
          simp only [Bool.not_false, Bool.not_true]
          rw [parseCSVLineAux, if_pos (by simp)]
          simp only [Bool.not_false, Bool.not_true]
          rw [parseCSVLineAux_inQuotes db (fun c hc => (hb' c hc).1)
            ['"'] ("" ++ String.mk da) []]
          rw [parseCSVLineAux, if_pos (by simp)]
          simp only [Bool.not_false, Bool.not_true]
          rw [parseCSVLineAux]
          have hcur : ("" ++ String.mk da) ++ String.mk db = String.mk (da ++ db) := by
            exact congrArg String.mk (by simp)
          rw [hcur]
          simp only [List.nil_append, List.map]
          have hcat : ∀ c ∈ (String.mk (da ++ db)).data,
              c ≠ '"' ∧ isJsWhitespace c = false := by
            intro c hc
            rcases List.mem_append.mp hc with hc | hc
            · exact ha' c hc
            · exact hb' c hc
          rw [jsTrim_clean _ (fun c hc => (hcat c hc).2),
              stripEdgeQuotes_noquote _ (fun c hc => (hcat c hc).1),
              jsTrim_clean _ (fun c hc => (hcat c hc).2)]
          exact congrArg (fun x => [x]) (congrArg String.mk rfl)

/-- On quote-free, whitespace-free input the quote-aware tokenizer agrees
with the naive comma splitter. -/
theorem parseCSVLineAux_plain :
    ∀ (cs : List Char), (∀ c ∈ cs, c ≠ '"' ∧ isJsWhitespace c = false) →
    ∀ (cur : List Char) (res : List String),
      (∀ c ∈ cur, c ≠ '"' ∧ isJsWhitespace c = false) →
      (parseCSVLineAux cs (String.mk cur.reverse) false res).map
          (fun v => jsTrim (stripEdgeQuotes v)) =
        res.map (fun v => jsTrim (stripEdgeQuotes v)) ++ specSplitCommasAux cs cur := by
  intro cs
  induction cs with
  | nil =>
      intro _ cur res hcur
      rw [parseCSVLineAux, specSplitCommasAux, List.map_append]
      congr 1
      have hclean : ∀ c ∈ (String.mk cur.reverse).data, isJsWhitespace c = false :=
        fun c hc => (hcur c (List.mem_reverse.mp hc)).2
      have hnq : ∀ c ∈ (String.mk cur.reverse).data, c ≠ '"' :=
        fun c hc => (hcur c (List.mem_reverse.mp hc)).1
      simp only [List.map]
      rw [jsTrim_clean _ hclean, stripEdgeQuotes_noquote _ hnq, jsTrim_clean _ hclean]
  | cons c cs2 ih =>
      intro h cur res hcur
      have hc := h c (by simp)
      rw [parseCSVLineAux, specSplitCommasAux]
      rw [if_neg (by simp [hc.1])]
      by_cases hcomma : c = ','
      · rw [if_pos (by simp [hcomma]), if_pos (by simp [hcomma])]
        have hstep := ih (fun x hx => h x (by simp [hx])) []
          (res ++ [jsTrim (String.mk cur.reverse)])
          (fun x hx => absurd hx (List.not_mem_nil x))
        rw [show String.mk (List.reverse ([] : List Char)) = "" from rfl] at hstep
        rw [hstep, List.map_append, List.append_assoc]
        congr 1
        have hclean : ∀ x ∈ (String.mk cur.reverse).data, isJsWhitespace x = false :=
          fun x hx => (hcur x (List.mem_reverse.mp hx)).2
        have hnq : ∀ x ∈ (String.mk cur.reverse).data, x ≠ '"' :=
          fun x hx => (hcur x (List.mem_reverse.mp hx)).1
        simp only [List.map]
        rw [jsTrim_clean _ hclean, stripEdgeQuotes_noquote _ hnq,
            jsTrim_clean _ hclean]
        rfl
      · rw [if_neg (by simp [hcomma]), if_neg (by simp [hcomma])]
        have hpush : (String.mk cur.reverse).push c = String.mk ((c :: cur).reverse) := by
          exact congrArg String.mk (by simp)
        rw [hpush]
        exact ih (fun x hx => h x (by simp [hx])) (c :: cur) res (by
          intro x hx
          rcases List.mem_cons.mp hx with hx | hx
          · rw [hx]; exact hc
          · exact hcur x hx)

theorem lookup_append (l1 l2 : List (String × String)) (k : String) :
    List.lookup k (l1 ++ l2) =
      (match List.lookup k l1 with
       | some v => some v
       | none => List.lookup k l2) := by
  induction l1 with
  | nil => rfl
  | cons p t ih =>
      obtain ⟨a, b⟩ := p
      rw [List.cons_append]
      by_cases hk : (k == a) = true
      · simp [List.lookup, hk]
      · have hk' : (k == a) = false := by
          cases hkk : (k == a)
          · rfl
          · exact absurd hkk hk
        simp only [List.lookup, hk']
        exact ih

theorem lookup_eq_none_of_not_mem (l : List (String × String)) (k : String)
    (h : ∀ p ∈ l, p.1 ≠ k) : List.lookup k l = none := by
  induction l with
  | nil => rfl
  | cons p t ih =>
      obtain ⟨a, b⟩ := p
      have ha : a ≠ k := h (a, b) (by simp)
      have hk : (k == a) = false := by
        simp
        intro hc
        exact ha hc.symm
      simp only [List.lookup, hk]
      exact ih (fun q hq => h q (by simp [hq]))

theorem lookup_mem (l : List (String × String)) (k v : String)
    (h : List.lookup k l = some v) : ∃ a, (a, v) ∈ l ∧ k = a := by
  induction l with
  | nil => exact Option.noConfusion h
  | cons p t ih =>
      obtain ⟨a, b⟩ := p
      by_cases hk : (k == a) = true
      · simp only [List.lookup, hk] at h
        have hb : b = v := by simpa using h
        exact ⟨a, by simp [hb], by simpa using hk⟩
      · have hk' : (k == a) = false := by
          cases hkk : (k == a)
          · rfl
          · exact absurd hkk hk
        simp only [List.lookup, hk'] at h
        obtain ⟨a2, ha2, hka⟩ := ih h
        exact ⟨a2, by simp [ha2], hka⟩

theorem enumFrom_mem_snd {α : Type} (l : List α) :
    ∀ (n : ℕ) (p : ℕ × α), p ∈ List.enumFrom n l → p.2 ∈ l := by
  induction l with
  | nil => intro n p hp; exact absurd hp (List.not_mem_nil p)
  | cons a t ih =>
      intro n p hp
      rw [List.enumFrom] at hp
      rcases List.mem_cons.mp hp with hp | hp
      · rw [hp]
        simp
      · exact List.mem_cons_of_mem a (ih (n + 1) p hp)

theorem rowGet_defined (headers vals : List String) (key : String)
    (h : key ∈ headers) :
    ∃ v, rowGet (buildRow headers vals) key = some v := by
  rw [rowGet, buildRow]
  show ∃ v, List.lookup key ((headers.enumFrom 0).map
    (fun p => (p.2, (vals.get? p.1).getD ""))).reverse = some v
  have main : ∀ (hs : List String) (n : ℕ), key ∈ hs →
      ∃ v, List.lookup key ((hs.enumFrom n).map
        (fun p => (p.2, (vals.get? p.1).getD ""))).reverse = some v := by
    intro hs
    induction hs with
    | nil => intro n hmem; exact absurd hmem (List.not_mem_nil key)
    | cons hd tl ih =>
        intro n hmem
        rw [List.enumFrom, List.map_cons, List.reverse_cons]
        by_cases htl : key ∈ tl
        · obtain ⟨v, hv⟩ := ih (n + 1) htl
          refine ⟨v, ?_⟩
          rw [lookup_append, hv]
        · have hkey : key = hd := by
            rcases List.mem_cons.mp hmem with hm | hm
            · exact hm
            · exact absurd hm htl
          have hnone : List.lookup key ((tl.enumFrom (n + 1)).map
              (fun p => (p.2, (vals.get? p.1).getD ""))).reverse = none := by
            apply lookup_eq_none_of_not_mem
            intro p hp
            rw [List.mem_reverse] at hp
            obtain ⟨q, hq1, hq2⟩ := List.mem_map.mp hp
            have hq3 : q.2 ∈ tl := enumFrom_mem_snd tl (n + 1) q hq1
            rw [← hq2]
            intro hc
            have hq4 : q.2 = key := hc
            rw [hq4] at hq3
            exact htl hq3
          refine ⟨(vals.get? n).getD "", ?_⟩
          rw [lookup_append, hnone]
          simp [List.lookup, hkey]
  exact main headers 0 h

theorem rowGet_empty_vals (headers : List String) (key : String)
    (h : key ∈ headers) : rowGet (buildRow headers []) key = some "" := by
  obtain ⟨v, hv⟩ := rowGet_defined headers [] key h
  obtain ⟨a, ha, _⟩ := lookup_mem _ _ _ hv
  rw [List.mem_reverse] at ha
  obtain ⟨q, _, hq2⟩ := List.mem_map.mp ha
  have hv0 : v = "" := by
    have hsnd := congrArg Prod.snd hq2
    simpa using hsnd.symm
  rw [hv, hv0]

/-- C7 amended: the tokenizer consumes (deletes) every quote character
while scanning — a quoted field keeps embedded commas as one token with
its wrapping quotes removed, quote-free lines split at every comma
(agreement with the naive splitter), and a field written `"a""b"` yields
`ab` (the doubled quote is deleted, NOT un-escaped to `a"b` — see the
counterexample); rows shorter than the header read as empty-string values
for the missing columns. -/
theorem C7_csv_tokenizer :
    (∀ s : String, (∀ c ∈ s.data, c ≠ '"' ∧ isJsWhitespace c = false) →
      parseCSVLine ("\"" ++ s ++ "\"") = [s]) ∧
    (∀ s : String, (∀ c ∈ s.data, c ≠ '"' ∧ isJsWhitespace c = false) →
      parseCSVLine s = specSplitCommas s) ∧
    (∀ a b : String, (∀ c ∈ a.data, c ≠ '"' ∧ isJsWhitespace c = false) →
      (∀ c ∈ b.data, c ≠ '"' ∧ isJsWhitespace c = false) →
      parseCSVLine ("\"" ++ a ++ "\"\"" ++ b ++ "\"") = [a ++ b]) ∧
    (∀ (headers vals : List String) (key : String), key ∈ headers →
      ∃ v, rowGet (buildRow headers vals) key = some v) ∧
    (∀ (headers : List String) (key : String), key ∈ headers →
      rowGet (buildRow headers []) key = some "") := by
  refine ⟨parseCSVLine_quoted, ?_, parseCSVLine_doubled, rowGet_defined,
    rowGet_empty_vals⟩
  intro s h
  have := parseCSVLineAux_plain s.data h [] []
    (fun x hx => absurd hx (List.not_mem_nil x))
  rw [show String.mk (List.reverse ([] : List Char)) = "" from rfl] at this
  simpa [parseCSVLine, specSplitCommas] using this

/-- Witness for C7's amended theorem at concrete lines and rows. -/
theorem C7_csv_tokenizer_witness :
    parseCSVLine "\"Bristol,North,Somerset\"" = ["Bristol,North,Somerset"] ∧
    parseCSVLine "a,b,c" = specSplitCommas "a,b,c" ∧
    parseCSVLine "\"x\"\"y\"" = ["xy"] ∧
    rowGet (buildRow ["h1", "h2"] ["v1"]) "h2" = some "" := by
  have h := C7_csv_tokenizer
  refine ⟨h.1 "Bristol,North,Somerset" (by decide),
          h.2.1 "a,b,c" (by decide),
          h.2.2.1 "x" "y" (by decide) (by decide),
          ?_⟩
  have hd := h.2.2.2.1 ["h1", "h2"] ["v1"] "h2" (by decide)
  obtain ⟨v, hv⟩ := hd
  have : v = "" := by
    have := hv
    rw [show rowGet (buildRow ["h1", "h2"] ["v1"]) "h2" = some "" from rfl] at this
    simpa using this.symm
  rw [← this]
  exact hv

/-! ### C10 -/

theorem getRandomRecommendation_mem (r : ℚ) :
    getRandomRecommendation r ∈ recommendationValues := by
  simp only [getRandomRecommendation, grrGo, recommendationValues]
  split_ifs <;> simp

theorem getRandomRecommendation_fallback (r : ℚ) (h : 1 ≤ r) :
    getRandomRecommendation r = "Monitor" := by
  simp only [getRandomRecommendation, grrGo]
  split_ifs with h1 h2 h3 h4 <;> first
    | rfl
    | (exfalso; linarith)

theorem applyFiltersCSV_mem (params : SearchParams) (l : List Tender) (t : Tender)
    (h : t ∈ applyFiltersCSV params l) : t ∈ l := by
  simp only [applyFiltersCSV] at h
  repeat' split at h
  all_goals repeat' replace h := List.mem_of_mem_filter h
  all_goals exact h

theorem parseOCDSCSV_ai_none (nowMs : Int) (nowIso : String)
    (dateOf : String → Int) (csvText : String) :
    ∀ t ∈ parseOCDSCSV nowMs nowIso dateOf csvText, t.ai_analyzed = none := by
  have rows : ∀ (lines : List String) (headers : List String) (i : ℕ),
      ∀ t ∈ csvRowsToTenders nowMs nowIso dateOf headers i lines,
        t.ai_analyzed = none := by
    intro lines
    induction lines with
    | nil => intro headers i t ht; exact absurd ht (List.not_mem_nil t)
    | cons line rest ih =>
        intro headers i t ht
        rw [csvRowsToTenders] at ht
        rcases hrow : csvRowToTender nowMs nowIso dateOf headers i line with _ | t0
        · rw [hrow] at ht
          exact ih headers (i + 1) t ht
        · rw [hrow] at ht
          rcases List.mem_cons.mp ht with ht | ht
          · simp only [csvRowToTender] at hrow
            split at hrow
            · exact Option.noConfusion hrow
            · have := (Option.some.injEq _ _).mp hrow
              rw [ht, ← this]
          · exact ih headers (i + 1) t ht
  intro t ht
  rw [parseOCDSCSV] at ht
  split at ht
  · exact absurd ht (List.not_mem_nil t)
  · split at ht
    · exact absurd ht (List.not_mem_nil t)
    · exact absurd ht (List.not_mem_nil t)
    · exact rows _ _ 1 t ht

/-- C10: every tender coming out of the CSV fetch-and-process pipeline
carries a placeholder `sirona_fit` before any real enrichment: an integer
alignment score in [60, 89], a recommendation drawn from the four known
values (with `"Monitor"` as the loop fallback), and `ai_analyzed` still
unset. -/
theorem C10_pipeline_placeholder (nowMs : Int) (nowIso : String)
    (dateOf : String → Int) (rands : ℕ → ℚ × ℚ) (params : SearchParams)
    (csvTexts : List String)
    (hr : ∀ i, 0 ≤ (rands i).1 ∧ (rands i).1 < 1) :
    (∀ r, 1 ≤ r → getRandomRecommendation r = "Monitor") ∧
    ∀ t ∈ fetchAndProcessTendersCore nowMs nowIso dateOf rands params csvTexts,
      (∃ fit, t.sirona_fit = some fit) ∧
      (∃ n : ℤ, fitScore t = some (n : ℚ) ∧ 60 ≤ n ∧ n ≤ 89) ∧
      (∃ rec, fitRec t = some rec ∧ rec ∈ recommendationValues) ∧
      t.ai_analyzed = none := by
  refine ⟨getRandomRecommendation_fallback, ?_⟩
  intro t ht
  simp only [fetchAndProcessTendersCore] at ht
  replace ht := applyFiltersCSV_mem _ _ _ ht
  obtain ⟨p, hp, hpe⟩ := List.mem_map.mp ht
  obtain ⟨hr0, hr1⟩ := hr p.1
  refine ⟨⟨placeholderFit (rands p.1).1 (rands p.1).2 p.2.categories,
    by rw [← hpe]; rfl⟩, ?_, ?_, ?_⟩
  · refine ⟨⌊(rands p.1).1 * 30⌋ + 60, ?_, ?_, ?_⟩
    · rw [← hpe]
      show some ((((⌊(rands p.1).1 * 30⌋ : ℤ) : ℚ)) + 60) =
        some (((⌊(rands p.1).1 * 30⌋ + 60 : ℤ) : ℚ))
      push_cast
      rfl
    · have h0 : (0 : ℤ) ≤ ⌊(rands p.1).1 * 30⌋ :=
        Int.floor_nonneg.mpr (by nlinarith)
      omega
    · have hlt : ⌊(rands p.1).1 * 30⌋ < 30 := by
        apply Int.floor_lt.mpr
        push_cast
        nlinarith
      omega
  · exact ⟨getRandomRecommendation (rands p.1).2, by rw [← hpe]; rfl,
      getRandomRecommendation_mem _⟩
  · rw [← hpe]
    show p.2.ai_analyzed = none
    have hp2 : p.2 ∈ dedupeByOcid ((csvTexts.map
        (parseOCDSCSV nowMs nowIso dateOf)).flatten) := by
      have := enumFrom_mem_snd _ 0 p hp
      exact this
    have hp3 : p.2 ∈ (csvTexts.map (parseOCDSCSV nowMs nowIso dateOf)).flatten :=
      (dedupeByGo_sublist _ [] _).subset hp2
    obtain ⟨l, hl, hpl⟩ := List.mem_flatten.mp hp3
    obtain ⟨csvText, _, hct⟩ := List.mem_map.mp hl
    rw [← hct] at hpl
    exact parseOCDSCSV_ai_none nowMs nowIso dateOf csvText p.2 hpl

/-- Witness for C10 at the sample CSV with both random draws 0. -/
theorem C10_pipeline_placeholder_witness :
    (∃ fit, ((fetchAndProcessTendersCore 0 "T" (fun _ => 0) (fun _ => (0, 0)) {}
        [csvSample]).headD sampleTender).sirona_fit = some fit) ∧
    (∃ n : ℤ, fitScore ((fetchAndProcessTendersCore 0 "T" (fun _ => 0)
        (fun _ => (0, 0)) {} [csvSample]).headD sampleTender) = some (n : ℚ) ∧
      60 ≤ n ∧ n ≤ 89) ∧
    (∃ rec, fitRec ((fetchAndProcessTendersCore 0 "T" (fun _ => 0)
        (fun _ => (0, 0)) {} [csvSample]).headD sampleTender) = some rec ∧
      rec ∈ recommendationValues) ∧
    ((fetchAndProcessTendersCore 0 "T" (fun _ => 0) (fun _ => (0, 0)) {}
        [csvSample]).headD sampleTender).ai_analyzed = none :=
  (C10_pipeline_placeholder 0 "T" (fun _ => 0) (fun _ => (0, 0)) {} [csvSample]
      (fun _ => ⟨le_refl 0, zero_lt_one⟩)).2
    ((fetchAndProcessTendersCore 0 "T" (fun _ => 0) (fun _ => (0, 0)) {}
        [csvSample]).headD sampleTender)
    (List.mem_cons_self _ _)

/-! ### C3 -/

theorem analyzeTendersBatchGo_spec (nowIso : String)
    (calls : ℕ → Except ClaudeFailure (Option Json)) (total : ℕ) :
    ∀ (ts : List Tender) (i : ℕ),
      (analyzeTendersBatchGo nowIso calls true total i ts).1 =
        (ts.enumFrom i).map
          (fun p => analyzeTenderWithClaude nowIso (calls p.1) p.2) ∧
      (analyzeTendersBatchGo nowIso calls true total i ts).2 =
        ((ts.enumFrom i).map (fun p =>
          BatchEvent.progress (p.1 + 1) total
              (analyzeTenderWithClaude nowIso (calls p.1) p.2) ::
            (if p.1 + 1 < total then [BatchEvent.delayMs 500] else []))).flatten := by
  intro ts
  induction ts with
  | nil => intro i; exact ⟨rfl, rfl⟩
  | cons t rest ih =>
      intro i
      obtain ⟨ih1, ih2⟩ := ih (i + 1)
      constructor
      · show analyzeTenderWithClaude nowIso (calls i) t ::
            (analyzeTendersBatchGo nowIso calls true total (i + 1) rest).1 = _
        rw [ih1]
        rfl
      · show (if true then [BatchEvent.progress (i + 1) total
              (analyzeTenderWithClaude nowIso (calls i) t)] else []) ++
            (if i < total - 1 then [BatchEvent.delayMs 500] else []) ++
            (analyzeTendersBatchGo nowIso calls true total (i + 1) rest).2 = _
        rw [if_pos rfl, ih2]
        rw [List.enumFrom, List.map_cons, List.flatten_cons]
        rcases Nat.lt_or_ge (i + 1) total with hlt | hge
        · rw [if_pos (show i < total - 1 by omega), if_pos hlt]
          rfl
        · rw [if_neg (show ¬ i < total - 1 by omega),
              if_neg (show ¬ i + 1 < total by omega)]
          rfl

theorem progressFirsts_batchGo (nowIso : String)
    (calls : ℕ → Except ClaudeFailure (Option Json)) (total : ℕ) :
    ∀ (ts : List Tender) (i : ℕ),
      progressFirsts ((analyzeTendersBatchGo nowIso calls true total i ts).2) =
        List.range' (i + 1) ts.length := by
  intro ts
  induction ts with
  | nil => intro i; rfl
  | cons t rest ih =>
      intro i
      show progressFirsts ((if true then [BatchEvent.progress (i + 1) total
            (analyzeTenderWithClaude nowIso (calls i) t)] else []) ++
          (if i < total - 1 then [BatchEvent.delayMs 500] else []) ++
          (analyzeTendersBatchGo nowIso calls true total (i + 1) rest).2) = _
      rw [if_pos rfl, progressFirsts, List.filterMap_append, List.filterMap_append]
      have hdelay : List.filterMap (fun e =>
          match e with
          | BatchEvent.progress d _ _ => some d
          | _ => none)
          (if i < total - 1 then [BatchEvent.delayMs 500] else []) = [] := by
        split <;> rfl
      rw [hdelay]
      have := ih (i + 1)
      rw [progressFirsts] at this
      rw [this]
      show (i + 1) :: List.range' (i + 2) rest.length = _
      rw [List.length_cons, List.range'_succ]

theorem enumFrom_map_enum {α β : Type} (f : ℕ × α → β) :
    ∀ (l : List α) (n : ℕ),
      ((l.enumFrom n).map f).enumFrom n =
        (l.enumFrom n).map (fun p => (p.1, f p)) := by
  intro l
  induction l with
  | nil => intro n; rfl
  | cons a t ih =>
      intro n
      rw [List.enumFrom, List.map_cons, List.enumFrom, ih (n + 1), List.map_cons]

/-- C3: with a non-empty input and a configured API key, the batch resolves
with exactly one output per input in input order (the i-th output is the
single-item enrichment of the i-th input, even when every call fails); the
event trace has exactly one progress invocation per item — first argument
strictly increasing 1..N — each fired after the item completes and before
the inter-item delay, with no delay after the last item (the trace equals
`specBatchTrace`). -/
theorem C3_batch_contract (nowIso : String) (apiKey : Option String)
    (calls : ℕ → Except ClaudeFailure (Option Json)) (tenders : List Tender)
    (hne : tenders ≠ []) (hkey : apiKey.isSome = true) :
    ∃ out evs,
      analyzeTendersBatch nowIso apiKey calls true tenders = .ok (out, evs) ∧
      out.length = tenders.length ∧
      out = tenders.enum.map
        (fun p => analyzeTenderWithClaude nowIso (calls p.1) p.2) ∧
      evs = specBatchTrace out tenders.length ∧
      progressFirsts evs = List.range' 1 tenders.length := by
  obtain ⟨k, hk⟩ := Option.isSome_iff_exists.mp hkey
  have hemp : tenders.isEmpty = false := by
    cases tenders
    · exact absurd rfl hne
    · rfl
  obtain ⟨hfst, hsnd⟩ :=
    analyzeTendersBatchGo_spec nowIso calls tenders.length tenders 0
  refine ⟨(analyzeTendersBatchGo nowIso calls true tenders.length 0 tenders).1,
    (analyzeTendersBatchGo nowIso calls true tenders.length 0 tenders).2,
    ?_, ?_, hfst, ?_, progressFirsts_batchGo nowIso calls tenders.length tenders 0⟩
  · rw [hk]
    simp only [analyzeTendersBatch, hemp, Bool.false_eq_true, if_false]
  · rw [hfst, List.length_map, List.enumFrom_length]
  · rw [hsnd, hfst, specBatchTrace]
    have henum : List.enum ((tenders.enumFrom 0).map
        (fun p => analyzeTenderWithClaude nowIso (calls p.1) p.2)) =
      ((tenders.enumFrom 0).map
        (fun p => analyzeTenderWithClaude nowIso (calls p.1) p.2)).enumFrom 0 := rfl
    rw [henum, enumFrom_map_enum, List.map_map]
    rfl

/-- Witness for C3 at a concrete two-tender batch whose every call fails. -/
theorem C3_batch_contract_witness :
    ∃ out evs,
      analyzeTendersBatch "T" (some "key")
        (fun _ => .error ClaudeFailure.networkError) true
        [sampleTender, fitTender] = .ok (out, evs) ∧
      out.length = [sampleTender, fitTender].length ∧
      out = [sampleTender, fitTender].enum.map
        (fun p => analyzeTenderWithClaude "T"
          ((fun _ => .error ClaudeFailure.networkError) p.1) p.2) ∧
      evs = specBatchTrace out [sampleTender, fitTender].length ∧
      progressFirsts evs = List.range' 1 [sampleTender, fitTender].length :=
  C3_batch_contract "T" (some "key")
    (fun _ => .error ClaudeFailure.networkError)
    [sampleTender, fitTender] (by simp) rfl

end Sirona
